import Mathlib

/-!
# Muster: a verification development

A shallow embedding of the `muster` code generator (`format.go`, `generator.go`):
the field-list formatters `FormatReceiver`, `FormatParams`, `FormatResults`, the
type formatter `formatType`, and the emitter `Generator.generate`.

Conventions of the embedding.

* A Go `string` is a Lean `String`; `fmt.Sprintf` with `%s` verbs on strings is
  concatenation, `%d` on a non-negative `int` is `toString` on `Nat`.
* A nil `*ast.FieldList` is `none`; a field's `Names` slice is a `List String`
  (the identifiers' `Name`s; a nil and an empty slice are both `[]`).
* The Go field `Type` of `ast.Field` and `ast.FuncDecl` is spelled `Typ`.
* `log.Fatalf` terminates the process: a function that can reach it returns
  `Except Fatal _`, and `generate` reports the buffer contents at the exit.
* `FormatResults` assigns to `field.Names` of the shared syntax tree, so it
  returns the field list as it stands after the call next to the text.
-/

namespace Muster

/-! ## Strings -/

/-- Go `unicode.IsSpace`: the Latin-1 spaces and the code points with the
Unicode White_Space property. -/
def isSpace (c : Char) : Bool :=
  let n := c.toNat
  n = 0x09 || n = 0x0A || n = 0x0B || n = 0x0C || n = 0x0D || n = 0x20 ||
  n = 0x85 || n = 0xA0 || n = 0x1680 || (0x2000 ≤ n && n ≤ 0x200A) ||
  n = 0x2028 || n = 0x2029 || n = 0x202F || n = 0x205F || n = 0x3000

/-- Go `strings.TrimSpace` on the characters of a string. -/
def trimChars (cs : List Char) : List Char :=
  ((cs.dropWhile isSpace).reverse.dropWhile isSpace).reverse

/-- Go `strings.TrimSpace`: drop all leading and trailing white space. -/
def TrimSpace (s : String) : String :=
  ⟨trimChars s.data⟩

/-- Go `strings.Join`: the empty string for no elements, otherwise the first
element followed by `sep` and the next element for each further one. -/
def Join : List String → String → String
  | [], _ => ""
  | a :: rest, sep => rest.foldl (fun b s => b ++ sep ++ s) a

/-! ## Syntax trees (`go/ast`) -/

/-- The expression nodes that can stand as the type of a field. A slice type
is Go's `ast.ArrayType` with a nil length. The payload of the function,
interface and struct types is never inspected by the program. -/
inductive Expr where
  | Ident (Name : String)
  | StarExpr (X : Expr)
  | Ellipsis (Elt : Expr)
  | SelectorExpr (X : Expr) (Sel : String)
  | ArrayType (Len : Expr) (Elt : Expr)
  | SliceType (Elt : Expr)
  | MapType (Key : Expr) (Value : Expr)
  | ChanType (Value : Expr)
  | IndexExpr (X : Expr) (Index : Expr)
  | ParenExpr (X : Expr)
  | FuncType
  | InterfaceType
  | StructType
  deriving DecidableEq

/-- One entry of a receiver, parameter or result list (`ast.Field`). -/
structure Field where
  Names : List String
  Typ : Option Expr
  deriving DecidableEq

/-- A `*ast.FieldList`; `none` is the nil pointer. -/
abbrev FieldList := Option (List Field)

/-- The signature of a function (`ast.FuncType`). -/
structure FuncType where
  Params : FieldList
  Results : FieldList
  deriving DecidableEq

/-- A function or method declaration (`ast.FuncDecl`). -/
structure FuncDecl where
  Recv : FieldList
  Name : String
  Typ : FuncType
  deriving DecidableEq

/-- A top-level declaration of a file: a function declaration, or a general
declaration (import, const, type, var), which holds no `*ast.FuncDecl`. -/
inductive Decl where
  | funcDecl (d : FuncDecl)
  | genDecl
  deriving DecidableEq

/-- A parsed source file (`ast.File`); function declarations occur only among
its top-level declarations. -/
structure File where
  Decls : List Decl
  deriving DecidableEq

/-- The loaded package (`packages.Package`), reduced to its syntax trees. -/
structure Package where
  Syntax : List File
  deriving DecidableEq

/-! ## Formatting modes -/

/-- The mode bit-set `FormatMode`. -/
abbrev FormatMode := Nat

def NeedName : FormatMode := 1
def NeedType : FormatMode := 2
def NeedError : FormatMode := 4

/-- The test `mode&flag != 0`. -/
def has (mode flag : FormatMode) : Bool :=
  mode &&& flag != 0

/-! ## Fatal exits -/

/-- The `log.Fatalf` sites of the program. -/
inductive Fatal where
  | receiverCount
  | receiverNoName
  | receiverNoType
  | paramNoName
  | paramNoType
  | resultNoType (i : Nat)
  | unknownType (t : Expr)
  | declNotFound (funcName : String)
  deriving DecidableEq

/-! ## The type formatter -/

/-- The `%s` verb of `fmt` on an `ast.Expr` operand. An `*ast.Ident` has a
`String` method, which returns its name. No other node type has one, and `fmt`
then prints the node by reflection: a text showing token positions and
addresses, which never fails; it is the parameter `reflect`. An `Expr` carries
no token position, so `reflect` gives two nodes of the same shape the same
text, where Go prints their different positions; nothing below compares the
texts of two such nodes, and an identifier element is not affected. -/
def sprintExpr (reflect : Expr → String) : Expr → String
  | Expr.Ident n => n
  | e => reflect e

/-- Go `formatType`: a helper to format a type from a field. -/
def formatType (reflect : Expr → String) (typ : Expr) : Except Fatal String :=
  match typ with
  | Expr.StarExpr x => .ok ("*" ++ sprintExpr reflect x)
  | Expr.Ident n => .ok n
  | Expr.Ellipsis elt => .ok ("..." ++ sprintExpr reflect elt)
  | t => .error (Fatal.unknownType t)

/-! ## The field-list formatters -/

/-- Go `FormatReceiver`: builds a string from the given receiver. -/
def FormatReceiver (reflect : Expr → String) (fieldList : FieldList)
    (mode : FormatMode) : Except Fatal String :=
  match fieldList with
  | none => .ok ""
  | some [field] =>
    match (if has mode NeedName then
        (match field.Names with
          | [] => Except.error Fatal.receiverNoName
          | n :: _ => Except.ok n)
      else Except.ok "") with
    | .error e => .error e
    | .ok name =>
      match (if has mode NeedType then
          (match field.Typ with
            | none => Except.error Fatal.receiverNoType
            | some t => formatType reflect t)
        else Except.ok "") with
      | .error e => .error e
      | .ok typ =>
        let ret := if has mode NeedType then "(" ++ name ++ " " ++ typ ++ ")"
          else name ++ "."
        .ok (TrimSpace ret)
  | some _ => .error Fatal.receiverCount

/-- The loop of `FormatParams` over the fields, `params` being the slice built
so far. -/
def FormatParams.loop (reflect : Expr → String) (mode : FormatMode) :
    List Field → List String → Except Fatal (List String)
  | [], params => .ok params
  | field :: rest, params =>
    match (if has mode NeedName then
        (match field.Names with
          | [] => Except.error Fatal.paramNoName
          | n :: _ => Except.ok n)
      else Except.ok "") with
    | .error e => .error e
    | .ok name =>
      match (if has mode NeedType then
          (match field.Typ with
            | none => Except.error Fatal.paramNoType
            | some t => formatType reflect t)
        else Except.ok "") with
      | .error e => .error e
      | .ok typ =>
        FormatParams.loop reflect mode rest (params ++ [TrimSpace (name ++ " " ++ typ)])

/-- Go `FormatParams`: builds a string from the given parameters. -/
def FormatParams (reflect : Expr → String) (fieldList : FieldList)
    (mode : FormatMode) : Except Fatal String :=
  match fieldList with
  | none => .ok ""
  | some list =>
    match FormatParams.loop reflect mode list [] with
    | .error e => .error e
    | .ok params => .ok (Join params ", ")

/-- The loop of `FormatResults`: `len` is `len(fieldList.List)`, `i` the index
of the next field, `done` the fields already visited (as the loop left them)
and `results` the slice built so far. The field at index `len - 1` is skipped;
a field without names gets the name `r<i>` assigned when `NeedName` is set. -/
def FormatResults.loop (reflect : Expr → String) (mode : FormatMode) (len : Nat) :
    Nat → List Field → List Field → List String →
    Except Fatal (List Field × List String)
  | _, [], done, results => .ok (done, results)
  | i, field :: rest, done, results =>
    if i = len - 1 then
      FormatResults.loop reflect mode len (i + 1) rest (done ++ [field]) results
    else
      let field1 : Field :=
        if has mode NeedName && field.Names.isEmpty then
          { field with Names := ["r" ++ toString i] }
        else field
      let name := match field1.Names with
        | [] => ""
        | n :: _ => n
      match (if has mode NeedType then
          (match field1.Typ with
            | none => Except.error (Fatal.resultNoType i)
            | some t => formatType reflect t)
        else Except.ok "") with
      | .error e => .error e
      | .ok typ =>
        FormatResults.loop reflect mode len (i + 1) rest (done ++ [field1])
          (results ++ [TrimSpace (name ++ " " ++ typ)])

/-- Go `FormatResults`: builds a string from the given results. It returns the
text together with the field list as the call leaves it. -/
def FormatResults (reflect : Expr → String) (fieldList : FieldList)
    (mode : FormatMode) : Except Fatal (String × FieldList) :=
  match fieldList with
  | none => .ok ("", none)
  | some list =>
    match FormatResults.loop reflect mode list.length 0 list [] [] with
    | .error e => .error e
    | .ok (list1, results) =>
      let results1 :=
        if has mode NeedError then
          (if has mode NeedType then results ++ ["err error"] else results ++ ["err"])
        else results
      .ok (Join results1 ", ", some list1)

/-! ## The generator -/

/-- Go `Generator`: the accumulated output and the package being scanned. -/
structure Generator where
  buf : String
  pkg : Package
  deriving DecidableEq

/-- A process exit through `log.Fatalf`, with the output buffer as it stood. -/
structure Exit where
  fatal : Fatal
  buf : String
  deriving DecidableEq

/-- A `*ast.FuncDecl` into the package: where the node sits (file and
declaration index) and the node. -/
structure DeclRef where
  file : Nat
  index : Nat
  node : FuncDecl
  deriving DecidableEq

/-- The walk `ast.Inspect(file, ...)` of `generate` over the declarations of
file number `fi`, from declaration number `di` on. The callback assigns `decl`
at every function declaration named `funcName`; returning false there only
leaves out the children of that node, and the walk goes on with the next
declaration. No other node is an `*ast.FuncDecl`. -/
def inspectDecls (funcName : String) (fi : Nat) :
    Nat → List Decl → Option DeclRef → Option DeclRef
  | _, [], decl => decl
  | di, Decl.funcDecl n :: rest, decl =>
    if n.Name = funcName then
      inspectDecls funcName fi (di + 1) rest (some ⟨fi, di, n⟩)
    else
      inspectDecls funcName fi (di + 1) rest decl
  | di, Decl.genDecl :: rest, decl => inspectDecls funcName fi (di + 1) rest decl

/-- The loop `for _, file := range g.pkg.Syntax` of `generate`. -/
def findDecl (funcName : String) : Nat → List File → Option DeclRef → Option DeclRef
  | _, [], decl => decl
  | fi, file :: rest, decl =>
    findDecl funcName (fi + 1) rest (inspectDecls funcName fi 0 file.Decls decl)

/-- Store `results` as the result list of the function declaration at
declaration number `di` of a file. -/
def setResultsInDecls (results : FieldList) : Nat → List Decl → List Decl
  | _, [] => []
  | 0, Decl.funcDecl d :: rest =>
    Decl.funcDecl { d with Typ := { d.Typ with Results := results } } :: rest
  | 0, Decl.genDecl :: rest => Decl.genDecl :: rest
  | di + 1, d :: rest => d :: setResultsInDecls results di rest

/-- Store `results` as the result list of the declaration a `DeclRef` points
to: the effect on the package of the assignments `FormatResults` makes. -/
def setResults (results : FieldList) : Nat → Nat → List File → List File
  | _, _, [] => []
  | 0, di, file :: rest => { Decls := setResultsInDecls results di file.Decls } :: rest
  | fi + 1, di, file :: rest => file :: setResults results fi di rest

/-- Turn a fatal error of a formatter into the exit of the process with the
buffer `buf`. -/
def orExit {α : Type} (buf : String) : Except Fatal α → Except Exit α
  | .ok a => .ok a
  | .error e => .error ⟨e, buf⟩

/-- Go `Generator.generate`: produces the Must method for the named function,
appended to the buffer. -/
def generate (reflect : Expr → String) (g : Generator) (funcName : String) :
    Except Exit Generator :=
  match findDecl funcName 0 g.pkg.Syntax none with
  | none => .error ⟨Fatal.declNotFound funcName, g.buf⟩
  | some ref =>
    let decl := ref.node
    let mustName := "Must" ++ funcName
    let buf1 := g.buf ++ ("// " ++ mustName ++ " is like " ++ funcName ++
      " except it panics if " ++ funcName ++ " errors.\n")
    do
      let recvDecl ← orExit buf1 (FormatReceiver reflect decl.Recv (NeedName ||| NeedType))
      let paramsDecl ← orExit buf1 (FormatParams reflect decl.Typ.Params (NeedName ||| NeedType))
      let (resDecl, results1) ← orExit buf1 (FormatResults reflect decl.Typ.Results NeedType)
      let buf2 := buf1 ++ ("func " ++ recvDecl ++ " " ++ mustName ++ "(" ++ paramsDecl ++
        ") (" ++ resDecl ++ ") \x7b \n")
      let (resAssign, results2) ← orExit buf2 (FormatResults reflect results1 (NeedName ||| NeedError))
      let recvCall ← orExit buf2 (FormatReceiver reflect decl.Recv NeedName)
      let paramsCall ← orExit buf2 (FormatParams reflect decl.Typ.Params NeedName)
      let buf3 := buf2 ++ ("\t" ++ resAssign ++ " := " ++ recvCall ++ funcName ++ "(" ++
        paramsCall ++ ")\n")
      let buf4 := buf3 ++ "\tif err != nil \x7b\n" ++ "\t\tpanic(err)\n" ++ "\t\x7d\n"
      let (resReturn, results3) ← orExit buf4 (FormatResults reflect results2 NeedName)
      let buf5 := buf4 ++ ("\treturn " ++ resReturn ++ "\n")
      let buf6 := buf5 ++ "\x7d"
      pure { buf := buf6, pkg := { Syntax := setResults results3 ref.file ref.index g.pkg.Syntax } }

/-! ## Auxiliary definitions for the statements -/

deriving instance DecidableEq for Except

/-- Non-empty and without white space, as every Go identifier is. -/
def spaceFree (s : String) : Bool :=
  !s.data.isEmpty && s.data.all (fun c => !isSpace c)

/-- The supported type shapes: an identifier, a pointer to an identifier and a
variadic of an identifier. -/
def supportedType : Expr → Bool
  | Expr.Ident n => spaceFree n
  | Expr.StarExpr (Expr.Ident n) => spaceFree n
  | Expr.Ellipsis (Expr.Ident n) => spaceFree n
  | _ => false

/-- The source text of a supported type. -/
def typeText : Expr → String
  | Expr.Ident n => n
  | Expr.StarExpr (Expr.Ident n) => "*" ++ n
  | Expr.Ellipsis (Expr.Ident n) => "..." ++ n
  | _ => ""

/-- The source text of the type of a field. -/
def fieldTypeText (f : Field) : String :=
  match f.Typ with
  | some t => typeText t
  | none => ""

/-- A field as a signature shows it: its type, preceded by its first name and a
space when it has a name. -/
def renderTyped (f : Field) : String :=
  match f.Names with
  | [] => fieldTypeText f
  | n :: _ => n ++ " " ++ fieldTypeText f

/-- The assignment to `field.Names` inside the loop of `FormatResults`: a field
without names gets `r<i>` when `NeedName` is set. -/
def synthName (mode : FormatMode) (i : Nat) (field : Field) : Field :=
  if has mode NeedName && field.Names.isEmpty then
    { field with Names := ["r" ++ toString i] }
  else field

/-- The first name of a field, the empty string when it has none. -/
def firstName (f : Field) : String :=
  match f.Names with
  | [] => ""
  | n :: _ => n

/-- The type text the loop of `FormatResults` computes for the field at index
`i`. -/
def resultType (reflect : Expr → String) (mode : FormatMode) (i : Nat) (f : Field) :
    Except Fatal String :=
  if has mode NeedType then
    (match f.Typ with
      | none => Except.error (Fatal.resultNoType i)
      | some t => formatType reflect t)
  else Except.ok ""

/-- The loop of `FormatResults` without accumulators: the fields from index `i`
on, the last one skipped. It returns the fields as left and the entries. -/
def resultsRun (reflect : Expr → String) (mode : FormatMode) :
    Nat → List Field → Except Fatal (List Field × List String)
  | _, [] => .ok ([], [])
  | _, [last] => .ok ([last], [])
  | i, f :: g :: rest =>
    match resultType reflect mode i (synthName mode i f) with
    | .error e => .error e
    | .ok typ =>
      match resultsRun reflect mode (i + 1) (g :: rest) with
      | .error e => .error e
      | .ok (fs, es) =>
        .ok (synthName mode i f :: fs,
          TrimSpace (firstName (synthName mode i f) ++ " " ++ typ) :: es)

/-- The entry `err error` or `err` that `NeedError` adds. -/
def errEntry (mode : FormatMode) : List String :=
  if has mode NeedError then (if has mode NeedType then ["err error"] else ["err"])
  else []
/-- The type of the field is present and of a supported shape. -/
def fieldSupported (f : Field) : Bool :=
  match f.Typ with
  | some t => supportedType t
  | none => false

/-- Every name of the field is non-empty and without white space. -/
def namesSpaceFree (f : Field) : Bool :=
  f.Names.all spaceFree

/-! ## The declarations of the tests (`generator_test.go`) -/

/-- The identifier `name` as a type expression. -/
def ident (name : String) : Option Expr := some (Expr.Ident name)

/-- The test input `func Args(str string, n int) error`. -/
def args_in : FuncDecl :=
  { Recv := none, Name := "Args",
    Typ := { Params := some [⟨["str"], ident "string"⟩, ⟨["n"], ident "int"⟩],
             Results := some [⟨[], ident "error"⟩] } }

/-- The results of the test input `func Results() (string, int, error)`. -/
def results_list : List Field :=
  [⟨[], ident "string"⟩, ⟨[], ident "int"⟩, ⟨[], ident "error"⟩]

/-- The test input `func Results() (string, int, error)`. -/
def results_in : FuncDecl :=
  { Recv := none, Name := "Results",
    Typ := { Params := some [], Results := some results_list } }

/-- The results of the test input
`func NamedResults() (str string, n int, err error)`. -/
def named_results_list : List Field :=
  [⟨["str"], ident "string"⟩, ⟨["n"], ident "int"⟩, ⟨["err"], ident "error"⟩]

/-- The test input `func NamedResults() (str string, n int, err error)`. -/
def named_results_in : FuncDecl :=
  { Recv := none, Name := "NamedResults",
    Typ := { Params := some [], Results := some named_results_list } }

/-- The test input `func (t T) Receiver() error`. -/
def receiver_in : FuncDecl :=
  { Recv := some [⟨["t"], ident "T"⟩], Name := "Receiver",
    Typ := { Params := some [], Results := some [⟨[], ident "error"⟩] } }

/-- The test input `func (t *T) PtrReceiver() error`. -/
def ptr_receiver_in : FuncDecl :=
  { Recv := some [⟨["t"], some (Expr.StarExpr (Expr.Ident "T"))⟩], Name := "PtrReceiver",
    Typ := { Params := some [], Results := some [⟨[], ident "error"⟩] } }

/-- A generator with an empty buffer on a package of one file that holds the
given declarations. -/
def generatorOn (decls : List FuncDecl) : Generator :=
  { buf := "", pkg := { Syntax := [{ Decls := decls.map Decl.funcDecl }] } }

/-- A rendering of nodes by reflection, for the evaluation of examples. -/
def reflectStub : Expr → String :=
  fun _ => "&\x7b\x7d"

/-- The name `FormatParams` uses for a field that passes its checks: the first
name of the field under `NeedName`, nothing otherwise. -/
def paramName (mode : FormatMode) (f : Field) : String :=
  if has mode NeedName then firstName f else ""

/-- The type text `FormatParams` uses for a field that passes its checks. -/
def paramType (reflect : Expr → String) (mode : FormatMode) (f : Field) : String :=
  if has mode NeedType then
    (match f.Typ with
      | some t =>
        (match formatType reflect t with
          | .ok s => s
          | .error _ => "")
      | none => "")
  else ""

/-- The entry of `FormatParams` for a field that passes its checks. -/
def paramEntry (reflect : Expr → String) (mode : FormatMode) (f : Field) : String :=
  TrimSpace (paramName mode f ++ " " ++ paramType reflect mode f)

/-- A field on which `FormatParams` exits: no name under `NeedName`, or under
`NeedType` no type or a type that `formatType` rejects. -/
def paramRejected (reflect : Expr → String) (mode : FormatMode) (f : Field) : Prop :=
  (has mode NeedName = true ∧ f.Names = []) ∨
  (has mode NeedType = true ∧
    (f.Typ = none ∨ ∃ t e, f.Typ = some t ∧ formatType reflect t = .error e))

/-- The parameters of `func F(a, b int) error`: one field with two names. -/
def grouped_params : List Field :=
  [⟨["a", "b"], ident "int"⟩]

/-- The method `func (a A) Run() error`. -/
def run_of_A : FuncDecl :=
  { Recv := some [⟨["a"], ident "A"⟩], Name := "Run",
    Typ := { Params := some [], Results := some [⟨[], ident "error"⟩] } }

/-- The method `func (b B) Run() error`, declared after `run_of_A`. -/
def run_of_B : FuncDecl :=
  { Recv := some [⟨["b"], ident "B"⟩], Name := "Run",
    Typ := { Params := some [], Results := some [⟨[], ident "error"⟩] } }

/-- The type `**T`. -/
def ptr_ptr_T : Expr :=
  Expr.StarExpr (Expr.StarExpr (Expr.Ident "T"))

/-- The type `*pkg.T`. -/
def ptr_qualified_T : Expr :=
  Expr.StarExpr (Expr.SelectorExpr (Expr.Ident "pkg") "T")

/-- The method `func (T) M() error`, its receiver unnamed. -/
def unnamed_receiver_in : FuncDecl :=
  { Recv := some [⟨[], ident "T"⟩], Name := "M",
    Typ := { Params := some [], Results := some [⟨[], ident "error"⟩] } }

/-- The parameters of `func F(xs ...T) error`. -/
def variadic_params : List Field :=
  [⟨["xs"], some (Expr.Ellipsis (Expr.Ident "T"))⟩]

/-- The result list of `results_list` after `FormatResults` has run on it with
`NeedName`: the two fields before the last carry the names `r0` and `r1`. -/
def results_list_named : List Field :=
  [⟨["r0"], ident "string"⟩, ⟨["r1"], ident "int"⟩, ⟨[], ident "error"⟩]

/-- A function declaration with `results` as its result list. -/
def withResults (results : FieldList) (d : FuncDecl) : FuncDecl :=
  { d with Typ := { d.Typ with Results := results } }

/-- A reference into the package as it reads once `results` is stored at the
declaration number `tdi` of file number `tfi`. -/
def refAfter (results : FieldList) (tfi tdi : Nat) (r : Option DeclRef) : Option DeclRef :=
  r.map (fun ref =>
    if ref.file = tfi ∧ ref.index = tdi then
      { ref with node := withResults results ref.node }
    else ref)

/-- The text of a wrapper, put together from its fragments as `generate` does. -/
def wrapperText (N recvDecl paramsDecl resDecl resAssign recvCall paramsCall
    resReturn : String) : String :=
  "// Must" ++ N ++ " is like " ++ N ++ " except it panics if " ++ N ++ " errors.\n" ++
  "func " ++ recvDecl ++ " Must" ++ N ++ "(" ++ paramsDecl ++ ") (" ++ resDecl ++
    ") \x7b \n" ++
  "\t" ++ resAssign ++ " := " ++ recvCall ++ N ++ "(" ++ paramsCall ++ ")\n" ++
  "\tif err != nil \x7b\n\t\tpanic(err)\n\t\x7d\n" ++
  "\treturn " ++ resReturn ++ "\n\x7d"

/-- The raw text of the first wrapper `generate` emits for `results_in`. -/
def results_out_raw : String :=
  wrapperText "Results" "" "" "string, int" "r0, r1, err" "" "" "r0, r1"

/-- The raw text `generate` emits for `results_in` on a second run. -/
def results_out_again : String :=
  wrapperText "Results" "" "" "r0 string, r1 int" "r0, r1, err" "" "" "r0, r1"

/-- The generator after one run of `generate` for `results_in`. -/
def results_run1 : Generator :=
  { buf := results_out_raw,
    pkg := { Syntax := [{ Decls := [Decl.funcDecl
      (withResults (some results_list_named) results_in)] }] } }

/-! ## Lemmas: modes, strings, the results loop -/

theorem land_lor_one_two (m : Nat) : (m ||| 1) &&& 2 = m &&& 2 := by
  apply Nat.eq_of_testBit_eq
  intro i
  simp only [Nat.testBit_land, Nat.testBit_lor]
  rcases i with _ | _ | i <;> simp [Nat.testBit_succ]

theorem land_lor_one_four (m : Nat) : (m ||| 1) &&& 4 = m &&& 4 := by
  apply Nat.eq_of_testBit_eq
  intro i
  simp only [Nat.testBit_land, Nat.testBit_lor]
  rcases i with _ | _ | _ | i <;> simp [Nat.testBit_succ]

theorem land_lor_one_one (m : Nat) : (m ||| 1) &&& 1 = 1 := by
  apply Nat.eq_of_testBit_eq
  intro i
  simp only [Nat.testBit_land, Nat.testBit_lor]
  rcases i with _ | i <;> simp [Nat.testBit_succ]

theorem has_lor_name_type (m : FormatMode) : has (m ||| NeedName) NeedType = has m NeedType := by
  simp only [has, NeedName, NeedType, land_lor_one_two]

theorem has_lor_name_error (m : FormatMode) : has (m ||| NeedName) NeedError = has m NeedError := by
  simp only [has, NeedName, NeedError, land_lor_one_four]

theorem has_lor_name_name (m : FormatMode) : has (m ||| NeedName) NeedName = true := by
  simp only [has, NeedName, land_lor_one_one]; rfl

theorem dropWhile_head {c : Char} {cs : List Char} (h : isSpace c = false) :
    (c :: cs).dropWhile isSpace = c :: cs := by
  simp [List.dropWhile, h]

theorem trimChars_keep (c d : Char) (m : List Char) (hc : isSpace c = false)
    (hd : isSpace d = false) : trimChars (c :: (m ++ [d])) = c :: (m ++ [d]) := by
  unfold trimChars
  rw [dropWhile_head hc]
  have : (c :: (m ++ [d])).reverse = d :: (m.reverse ++ [c]) := by simp
  rw [this, dropWhile_head hd]
  simp

theorem trimChars_single (c : Char) (hc : isSpace c = false) : trimChars [c] = [c] := by
  simp [trimChars, List.dropWhile, hc]

theorem Join_append_one (es : List String) (e sep : String) (h : es ≠ []) :
    Join (es ++ [e]) sep = Join es sep ++ sep ++ e := by
  cases es with
  | nil => exact absurd rfl h
  | cons a rest => simp [Join, List.foldl_append]

theorem Join_single (e sep : String) : Join [e] sep = e := rfl

theorem foldl_sep_prefix (p sep : String) (rest : List String) (x : String) :
    List.foldl (fun b s => b ++ sep ++ s) (p ++ x) rest =
      p ++ List.foldl (fun b s => b ++ sep ++ s) x rest := by
  induction rest generalizing x with
  | nil => rfl
  | cons c rest ih =>
    simp only [List.foldl_cons]
    rw [← ih]
    simp only [String.append_assoc]

theorem Join_cons_cons (a b : String) (rest : List String) (sep : String) :
    Join (a :: b :: rest) sep = a ++ sep ++ Join (b :: rest) sep := by
  simp only [Join, List.foldl_cons]
  rw [String.append_assoc, foldl_sep_prefix, foldl_sep_prefix, String.append_assoc]

theorem isSpace_digitChar (k : Nat) : isSpace (Nat.digitChar k) = false := by
  by_cases h : k < 16
  · interval_cases k <;> decide
  · have e : Nat.digitChar k = '*' := by
      unfold Nat.digitChar
      simp only [show k ≠ 0 by omega, show k ≠ 1 by omega, show k ≠ 2 by omega,
        show k ≠ 3 by omega, show k ≠ 4 by omega, show k ≠ 5 by omega, show k ≠ 6 by omega,
        show k ≠ 7 by omega, show k ≠ 8 by omega, show k ≠ 9 by omega, show k ≠ 10 by omega,
        show k ≠ 11 by omega, show k ≠ 12 by omega, show k ≠ 13 by omega, show k ≠ 14 by omega,
        show k ≠ 15 by omega, if_false]
    rw [e]; decide

theorem toDigitsCore_noSpace (b fuel n : Nat) (acc : List Char)
    (hacc : ∀ c ∈ acc, isSpace c = false) :
    ∀ c ∈ Nat.toDigitsCore b fuel n acc, isSpace c = false := by
  induction fuel generalizing n acc with
  | zero => simpa [Nat.toDigitsCore] using hacc
  | succ fuel ih =>
    intro c hc
    simp only [Nat.toDigitsCore] at hc
    split at hc
    · rcases List.mem_cons.1 hc with h | h
      · exact h ▸ isSpace_digitChar _
      · exact hacc c h
    · refine ih _ _ ?_ c hc
      intro d hd
      rcases List.mem_cons.1 hd with h | h
      · exact h ▸ isSpace_digitChar _
      · exact hacc d h

theorem repr_noSpace (i : Nat) : ∀ c ∈ (toString i).data, isSpace c = false := by
  intro c hc
  have : (toString i).data = Nat.toDigits 10 i := rfl
  rw [this] at hc
  exact toDigitsCore_noSpace 10 _ i [] (by simp) c hc

theorem spaceFree_iff (s : String) :
    spaceFree s = true ↔ s.data ≠ [] ∧ ∀ c ∈ s.data, isSpace c = false := by
  simp [spaceFree, List.isEmpty_iff]

theorem spaceFree_append_left (a b : String) (ha : spaceFree a = true)
    (hb : ∀ c ∈ b.data, isSpace c = false) : spaceFree (a ++ b) = true := by
  rw [spaceFree_iff] at *
  refine ⟨by simp [ha.1], ?_⟩
  intro c hc
  simp only [String.data_append, List.mem_append] at hc
  rcases hc with h | h
  · exact ha.2 c h
  · exact hb c h

theorem spaceFree_synth (i : Nat) : spaceFree ("r" ++ toString i) = true :=
  spaceFree_append_left "r" _ (by decide) (repr_noSpace i)

theorem trimChars_noSpace (cs : List Char) (hne : cs ≠ [])
    (h : ∀ c ∈ cs, isSpace c = false) : trimChars cs = cs := by
  obtain ⟨c, m, rfl⟩ := List.exists_cons_of_ne_nil hne
  rcases List.eq_nil_or_concat m with rfl | ⟨m1, d, hm⟩
  · exact trimChars_single c (h c (by simp))
  · rw [List.concat_eq_append] at hm
    subst hm
    exact trimChars_keep c d m1 (h c (by simp)) (h d (by simp))

theorem TrimSpace_name_type (n t : String) (hn : spaceFree n = true)
    (ht : spaceFree t = true) : TrimSpace (n ++ " " ++ t) = n ++ " " ++ t := by
  rw [spaceFree_iff] at hn ht
  obtain ⟨c, m, hc⟩ := List.exists_cons_of_ne_nil hn.1
  rcases List.eq_nil_or_concat t.data with h0 | ⟨m1, d, hd⟩
  · exact absurd h0 ht.1
  · rw [List.concat_eq_append] at hd
    have hdata : (n ++ " " ++ t).data = c :: ((m ++ ' ' :: m1) ++ [d]) := by
      simp [String.data_append, hc, hd]
    have : trimChars (n ++ " " ++ t).data = (n ++ " " ++ t).data := by
      rw [hdata]
      exact trimChars_keep c d _ (hn.2 c (by simp [hc])) (ht.2 d (by simp [hd]))
    show (⟨trimChars (n ++ " " ++ t).data⟩ : String) = _
    rw [this]

theorem TrimSpace_type_only (t : String) (ht : spaceFree t = true) :
    TrimSpace ("" ++ " " ++ t) = t := by
  rw [spaceFree_iff] at ht
  have hdata : ("" ++ " " ++ t).data = ' ' :: t.data := by
    simp [String.data_append]
  show (⟨trimChars ("" ++ " " ++ t).data⟩ : String) = _
  rw [hdata]
  have : trimChars (' ' :: t.data) = trimChars t.data := by
    simp [trimChars, List.dropWhile, show isSpace ' ' = true from by decide]
  rw [this, trimChars_noSpace _ ht.1 ht.2]

theorem TrimSpace_name_only (n : String) (hn : spaceFree n = true) :
    TrimSpace (n ++ " " ++ "") = n := by
  rw [spaceFree_iff] at hn
  have hdata : (n ++ " " ++ "").data = n.data ++ [' '] := by
    simp [String.data_append]
  show (⟨trimChars (n ++ " " ++ "").data⟩ : String) = _
  rw [hdata]
  obtain ⟨c, m, hc⟩ := List.exists_cons_of_ne_nil hn.1
  have h1 : (n.data ++ [' ']).dropWhile isSpace = n.data ++ [' '] := by
    rw [hc]; exact dropWhile_head (hn.2 c (by simp [hc]))
  have h2 : (n.data ++ [' ']).reverse.dropWhile isSpace = n.data.reverse := by
    rw [List.reverse_append]
    simp only [List.reverse_cons, List.reverse_nil, List.nil_append, List.singleton_append]
    rw [List.dropWhile_cons_of_pos (by decide)]
    have hn2 : ∀ c ∈ n.data.reverse, isSpace c = false := by
      intro c hc; exact hn.2 c (List.mem_reverse.1 hc)
    have hne : n.data.reverse ≠ [] := by simpa using hn.1
    obtain ⟨e, m2, he⟩ := List.exists_cons_of_ne_nil hne
    rw [he]; exact dropWhile_head (hn2 e (by simp [he]))
  unfold trimChars
  rw [h1, h2, List.reverse_reverse]
theorem loop_eq_run (reflect : Expr → String) (mode : FormatMode) (len : Nat)
    (fs : List Field) : ∀ (i : Nat) (done : List Field) (results : List String),
    i + fs.length = len →
    FormatResults.loop reflect mode len i fs done results =
      match resultsRun reflect mode i fs with
      | .error e => .error e
      | .ok (fs1, es) => .ok (done ++ fs1, results ++ es) := by
  induction fs with
  | nil => intro i done results _; simp [FormatResults.loop, resultsRun]
  | cons f rest ih =>
    intro i done results hlen
    cases rest with
    | nil =>
      have hi : i = len - 1 := by simp at hlen; omega
      simp [FormatResults.loop, resultsRun, hi]
    | cons g rest =>
      have hi : ¬ (i = len - 1) := by simp at hlen; omega
      have ih1 := ih (i + 1)
      rw [FormatResults.loop, if_neg hi]
      simp only [resultsRun]
      show (match resultType reflect mode i (synthName mode i f) with
        | Except.error e => Except.error e
        | Except.ok typ => FormatResults.loop reflect mode len (i + 1) (g :: rest)
            (done ++ [synthName mode i f])
            (results ++ [TrimSpace (firstName (synthName mode i f) ++ " " ++ typ)])) = _
      cases hty : resultType reflect mode i (synthName mode i f) with
      | error e => simp
      | ok typ =>
        simp only
        rw [ih1 _ _ (by simp at hlen ⊢; omega)]
        cases hrun : resultsRun reflect mode (i + 1) (g :: rest) with
        | error e => simp
        | ok p => obtain ⟨fs1, es⟩ := p; simp

theorem FormatResults_eq_run (reflect : Expr → String) (mode : FormatMode)
    (l : List Field) :
    FormatResults reflect (some l) mode =
      match resultsRun reflect mode 0 l with
      | .error e => .error e
      | .ok (fs1, es) => .ok (Join (es ++ errEntry mode) ", ", some fs1) := by
  unfold FormatResults
  simp only
  rw [loop_eq_run reflect mode l.length l 0 [] [] (by simp)]
  cases resultsRun reflect mode 0 l with
  | error e => rfl
  | ok p =>
    obtain ⟨fs1, es⟩ := p
    simp only [List.nil_append, errEntry]
    cases has mode NeedError <;> cases has mode NeedType <;> simp

theorem resultsRun_cons_cons (reflect : Expr → String) (mode : FormatMode) (i : Nat)
    (f g : Field) (rest : List Field) :
    resultsRun reflect mode i (f :: g :: rest) =
      match resultType reflect mode i (synthName mode i f) with
      | Except.error e => Except.error e
      | Except.ok typ =>
        match resultsRun reflect mode (i + 1) (g :: rest) with
        | Except.error e => Except.error e
        | Except.ok (fs, es) =>
          Except.ok (synthName mode i f :: fs,
            TrimSpace (firstName (synthName mode i f) ++ " " ++ typ) :: es) := by
  simp only [resultsRun]

theorem synthName_of_not_NeedName (mode : FormatMode) (i : Nat) (f : Field)
    (h : has mode NeedName = false) : synthName mode i f = f := by
  simp [synthName, h]

theorem synthName_of_named (mode : FormatMode) (i : Nat) (f : Field)
    (h : f.Names ≠ []) : synthName mode i f = f := by
  cases hn : f.Names with
  | nil => exact absurd hn h
  | cons n ns => simp [synthName, hn]

theorem synthName_Typ (mode : FormatMode) (i : Nat) (f : Field) :
    (synthName mode i f).Typ = f.Typ := by
  unfold synthName; split <;> rfl

theorem synthName_idem (mode : FormatMode) (i : Nat) (f : Field) :
    synthName mode i (synthName mode i f) = synthName mode i f := by
  by_cases h : (has mode NeedName && f.Names.isEmpty) = true
  · have : synthName mode i f = { f with Names := ["r" ++ toString i] } := by
      simp only [synthName, h, if_true]
    rw [this]
    exact synthName_of_named _ _ _ (by simp)
  · have : synthName mode i f = f := by
      simp only [synthName, h]; rfl
    rw [this, this]

theorem resultType_synthName (reflect : Expr → String) (mode m2 : FormatMode) (i j : Nat)
    (f : Field) :
    resultType reflect mode i (synthName m2 j f) = resultType reflect mode i f := by
  simp only [resultType, synthName_Typ]

/-- Without `NeedName` the loop of `FormatResults` leaves the fields as they are. -/
theorem resultsRun_frame (reflect : Expr → String) (mode : FormatMode)
    (h : has mode NeedName = false) (l : List Field) :
    ∀ (i : Nat) (fs : List Field) (es : List String),
      resultsRun reflect mode i l = .ok (fs, es) → fs = l := by
  induction l with
  | nil => intro i fs es hr; simp [resultsRun] at hr; obtain ⟨h1, h2⟩ := hr; subst_vars; rfl
  | cons f rest ih =>
    intro i fs es hr
    cases rest with
    | nil => simp [resultsRun] at hr; obtain ⟨h1, h2⟩ := hr; subst_vars; rfl
    | cons g rest =>
      rw [resultsRun_cons_cons, synthName_of_not_NeedName _ _ _ h] at hr
      cases hty : resultType reflect mode i f with
      | error e => simp [hty] at hr
      | ok typ =>
        cases hrun : resultsRun reflect mode (i + 1) (g :: rest) with
        | error e => simp [hty, hrun] at hr
        | ok p =>
          obtain ⟨fs1, es1⟩ := p
          simp [hty, hrun] at hr
          obtain ⟨h1, h2⟩ := hr
          subst_vars
          rw [ih (i + 1) fs1 es1 hrun]

/-- The loop of `FormatResults` makes one entry for each field but the last. -/
theorem resultsRun_length (reflect : Expr → String) (mode : FormatMode) (l : List Field) :
    ∀ (i : Nat) (fs : List Field) (es : List String),
      resultsRun reflect mode i l = .ok (fs, es) →
      fs.length = l.length ∧ es.length = l.length - 1 := by
  induction l with
  | nil => intro i fs es hr; simp [resultsRun] at hr; obtain ⟨h1, h2⟩ := hr; subst_vars; simp
  | cons f rest ih =>
    intro i fs es hr
    cases rest with
    | nil => simp [resultsRun] at hr; obtain ⟨h1, h2⟩ := hr; subst_vars; simp
    | cons g rest =>
      rw [resultsRun_cons_cons] at hr
      cases hty : resultType reflect mode i (synthName mode i f) with
      | error e => simp [hty] at hr
      | ok typ =>
        cases hrun : resultsRun reflect mode (i + 1) (g :: rest) with
        | error e => simp [hty, hrun] at hr
        | ok p =>
          obtain ⟨fs1, es1⟩ := p
          simp [hty, hrun] at hr
          obtain ⟨h1, h2⟩ := hr
          have := ih (i + 1) fs1 es1 hrun
          simp at this
          subst_vars
          simp [this.1, this.2]

/-- Without `NeedType` the loop of `FormatResults` cannot fail. -/
theorem resultsRun_ok_of_not_NeedType (reflect : Expr → String) (mode : FormatMode)
    (h : has mode NeedType = false) (l : List Field) :
    ∀ (i : Nat), ∃ fs es, resultsRun reflect mode i l = .ok (fs, es) := by
  induction l with
  | nil => intro i; exact ⟨[], [], rfl⟩
  | cons f rest ih =>
    intro i
    cases rest with
    | nil => exact ⟨[f], [], rfl⟩
    | cons g rest =>
      obtain ⟨fs1, es1, hrun⟩ := ih (i + 1)
      rw [resultsRun_cons_cons]
      have hty : resultType reflect mode i (synthName mode i f) = .ok "" := by
        simp [resultType, h]
      rw [hty, hrun]
      exact ⟨_, _, rfl⟩

/-- The loop of `FormatResults` depends on the mode only through its `NeedName`
and `NeedType` bits. -/
theorem resultsRun_congr (reflect : Expr → String) (m1 m2 : FormatMode)
    (hn : has m1 NeedName = has m2 NeedName) (ht : has m1 NeedType = has m2 NeedType)
    (l : List Field) : ∀ (i : Nat),
    resultsRun reflect m1 i l = resultsRun reflect m2 i l := by
  induction l with
  | nil => intro i; rfl
  | cons f rest ih =>
    intro i
    cases rest with
    | nil => rfl
    | cons g rest =>
      have hs : synthName m1 i f = synthName m2 i f := by simp [synthName, hn]
      have hr : ∀ x, resultType reflect m1 i x = resultType reflect m2 i x := by
        intro x; simp [resultType, ht]
      rw [resultsRun_cons_cons, resultsRun_cons_cons, ih (i + 1), hs, hr]

/-- Running the loop of `FormatResults` again on the fields it left gives the
same fields and the same entries. -/
theorem resultsRun_again (reflect : Expr → String) (mode : FormatMode) (l : List Field) :
    ∀ (i : Nat) (fs : List Field) (es : List String),
      resultsRun reflect mode i l = .ok (fs, es) →
      resultsRun reflect mode i fs = .ok (fs, es) := by
  induction l with
  | nil => intro i fs es hr; simp [resultsRun] at hr; obtain ⟨h1, h2⟩ := hr; subst_vars; rfl
  | cons f rest ih =>
    intro i fs es hr
    cases rest with
    | nil => simp [resultsRun] at hr; obtain ⟨h1, h2⟩ := hr; subst_vars; rfl
    | cons g rest =>
      rw [resultsRun_cons_cons] at hr
      cases hty : resultType reflect mode i (synthName mode i f) with
      | error e => simp [hty] at hr
      | ok typ =>
        cases hrun : resultsRun reflect mode (i + 1) (g :: rest) with
        | error e => simp [hty, hrun] at hr
        | ok p =>
          obtain ⟨fs1, es1⟩ := p
          simp [hty, hrun] at hr
          obtain ⟨e1, e2⟩ := hr
          have h1 := ih (i + 1) fs1 es1 hrun
          have hlen := (resultsRun_length reflect mode _ _ _ _ hrun).1
          obtain ⟨g1, rest1, hfs1⟩ : ∃ g1 rest1, fs1 = g1 :: rest1 := by
            cases fs1 with
            | nil => simp at hlen
            | cons a b => exact ⟨a, b, rfl⟩
          subst e1 e2
          rw [hfs1, resultsRun_cons_cons, synthName_idem, ← hfs1, h1, hty]

theorem has_NeedType_NeedName : has NeedType NeedName = false := by decide
theorem has_NeedType_NeedType : has NeedType NeedType = true := by decide
theorem has_NeedType_NeedError : has NeedType NeedError = false := by decide
theorem has_NeedName_NeedName : has NeedName NeedName = true := by decide
theorem has_NeedName_NeedType : has NeedName NeedType = false := by decide
theorem has_NeedName_NeedError : has NeedName NeedError = false := by decide
theorem has_NameError_NeedName : has (NeedName ||| NeedError) NeedName = true := by decide
theorem has_NameError_NeedType : has (NeedName ||| NeedError) NeedType = false := by decide
theorem has_NameError_NeedError : has (NeedName ||| NeedError) NeedError = true := by decide
theorem has_NameType_NeedName : has (NeedName ||| NeedType) NeedName = true := by decide
theorem has_NameType_NeedType : has (NeedName ||| NeedType) NeedType = true := by decide

theorem spaceFree_data (s : String) (h : spaceFree s = true) :
    ∀ c ∈ s.data, isSpace c = false :=
  ((spaceFree_iff s).1 h).2

/-- A supported type is formatted as its source text, which has no white space. -/
theorem formatType_supported (reflect : Expr → String) (t : Expr)
    (h : supportedType t = true) :
    formatType reflect t = .ok (typeText t) ∧ spaceFree (typeText t) = true := by
  cases t with
  | Ident n => exact ⟨rfl, h⟩
  | StarExpr x =>
    cases x <;> first
      | exact ⟨rfl, spaceFree_append_left "*" _ (by decide) (spaceFree_data _ h)⟩
      | exact absurd h (by simp [supportedType])
  | Ellipsis x =>
    cases x <;> first
      | exact ⟨rfl, spaceFree_append_left "..." _ (by decide) (spaceFree_data _ h)⟩
      | exact absurd h (by simp [supportedType])
  | _ => exact absurd h (by simp [supportedType])

/-- The entry of a named or unnamed field with a supported type is the field as
a signature shows it. -/
theorem entry_renderTyped (f : Field) (t : Expr) (hT : f.Typ = some t)
    (hs : supportedType t = true) (hn : ∀ n ∈ f.Names, spaceFree n = true) :
    TrimSpace (firstName f ++ " " ++ typeText t) = renderTyped f := by
  have hsf := (formatType_supported (fun _ => "") t hs).2
  cases hN : f.Names with
  | nil =>
    simp only [firstName, renderTyped, fieldTypeText, hN, hT]
    exact TrimSpace_type_only _ hsf
  | cons n ns =>
    simp only [firstName, renderTyped, fieldTypeText, hN, hT]
    exact TrimSpace_name_type n _ (hn n (by simp [hN])) hsf

theorem resultsRun_NeedType (reflect : Expr → String) (l : List Field) :
    ∀ (i : Nat),
      (∀ f ∈ l.dropLast, ∃ t, f.Typ = some t ∧ supportedType t = true) →
      (∀ f ∈ l.dropLast, ∀ n ∈ f.Names, spaceFree n = true) →
      resultsRun reflect NeedType i l = .ok (l, l.dropLast.map renderTyped) := by
  induction l with
  | nil => intro i _ _; rfl
  | cons f rest ih =>
    intro i hty hnm
    cases rest with
    | nil => rfl
    | cons g rest =>
      have hd : (f :: g :: rest).dropLast = f :: (g :: rest).dropLast := rfl
      rw [hd] at hty hnm
      obtain ⟨t, hT, hs⟩ := hty f (by simp)
      have ih1 := ih (i + 1) (fun x hx => hty x (List.mem_cons_of_mem _ hx))
        (fun x hx => hnm x (List.mem_cons_of_mem _ hx))
      rw [resultsRun_cons_cons, synthName_of_not_NeedName _ _ _ has_NeedType_NeedName, ih1]
      have : resultType reflect NeedType i f = .ok (typeText t) := by
        simp only [resultType, has_NeedType_NeedType, if_true, hT]
        exact (formatType_supported reflect t hs).1
      rw [this]
      simp only [hd, List.map_cons]
      rw [entry_renderTyped f t hT hs (hnm f (by simp))]

theorem resultsRun_unnamed (reflect : Expr → String) (l : List Field) :
    ∀ (i : Nat), (∀ f ∈ l, f.Names = []) →
      ∃ fs, resultsRun reflect NeedName i l =
        .ok (fs, (List.range' i (l.length - 1)).map (fun k => "r" ++ toString k)) := by
  induction l with
  | nil => intro i _; exact ⟨[], rfl⟩
  | cons f rest ih =>
    intro i hun
    cases rest with
    | nil => exact ⟨[f], rfl⟩
    | cons g rest =>
      obtain ⟨fs1, h1⟩ := ih (i + 1) (fun x hx => hun x (List.mem_cons_of_mem _ hx))
      have hf : f.Names = [] := hun f (by simp)
      have hsy : synthName NeedName i f = { f with Names := ["r" ++ toString i] } := by
        simp [synthName, has_NeedName_NeedName, hf]
      have hty : ∀ x, resultType reflect NeedName i x = .ok "" := by
        intro x; simp [resultType, has_NeedName_NeedType]
      rw [resultsRun_cons_cons, hty, h1, hsy]
      refine ⟨{ f with Names := ["r" ++ toString i] } :: fs1, ?_⟩
      simp only [firstName]
      rw [TrimSpace_name_only _ (spaceFree_synth i)]
      simp [List.range'_succ]

/-- C2: for a non-nil result list as parsed, whose fields before the last have
supported types, `FormatResults` with `NeedType` returns the `", "`-join, in
order, of every field except the last, each shown as its type preceded by its
name (the first one, should the field declare several) and a space when it is
named; there are `n - 1` entries (none for `n = 0`), and the list is left as it
was. -/
theorem FormatResults_NeedType_drops_last (reflect : Expr → String) (l : List Field)
    (hty : ∀ f ∈ l.dropLast, fieldSupported f = true)
    (hnm : ∀ f ∈ l.dropLast, namesSpaceFree f = true) :
    FormatResults reflect (some l) NeedType =
        .ok (Join (l.dropLast.map renderTyped) ", ", some l) ∧
      (l.dropLast.map renderTyped).length = l.length - 1 := by
  refine ⟨?_, by simp⟩
  have h := resultsRun_NeedType reflect l 0
    (by
      intro f hf
      have := hty f hf
      unfold fieldSupported at this
      cases hT : f.Typ with
      | none => simp [hT] at this
      | some t => exact ⟨t, rfl, by simpa [hT] using this⟩)
    (by
      intro f hf n hn
      have := hnm f hf
      exact (List.all_eq_true.1 this) n hn)
  rw [FormatResults_eq_run, h]
  simp [errEntry, has_NeedType_NeedError]

theorem FormatResults_NeedType_drops_last_witness :
    FormatResults reflectStub (some results_list) NeedType =
        .ok ("string, int", some results_list) ∧
      (results_list.dropLast.map renderTyped).length = 2 :=
  FormatResults_NeedType_drops_last reflectStub results_list (by decide) (by decide)

/-- C3: for a result list of `n` fields (any `n`, so `n >= 1` too) none of
which has a name,
`FormatResults` with `NeedName` returns `r0, r1, ..., r(n-2)`: position `i`
below `n - 1` gets the name `r` followed by the decimal rendering of `i`, and
the last field gets no entry. -/
theorem FormatResults_NeedName_synthesizes (reflect : Expr → String) (l : List Field)
    (hun : ∀ f ∈ l, f.Names = []) :
    ∃ l1, FormatResults reflect (some l) NeedName =
      .ok (Join ((List.range (l.length - 1)).map (fun i => "r" ++ toString i)) ", ",
        some l1) := by
  obtain ⟨fs, h⟩ := resultsRun_unnamed reflect l 0 hun
  refine ⟨fs, ?_⟩
  rw [FormatResults_eq_run, h, List.range_eq_range']
  simp [errEntry, has_NeedName_NeedError]

theorem FormatResults_NeedName_synthesizes_witness :
    ∃ l1, FormatResults reflectStub (some results_list) NeedName = .ok ("r0, r1", some l1) :=
  FormatResults_NeedName_synthesizes reflectStub results_list (by decide)

theorem dropWhile_append_keep (p : Char → Bool) (x y : List Char) (c : Char)
    (ys : List Char) (hy : y = c :: ys) (hc : p c = false) :
    ∃ x1, (x ++ y).dropWhile p = x1 ++ y := by
  induction x with
  | nil => exact ⟨[], by simp [hy, List.dropWhile, hc]⟩
  | cons a x ih =>
    by_cases ha : p a = true
    · obtain ⟨x1, h1⟩ := ih
      exact ⟨x1, by simp [List.dropWhile, ha, h1]⟩
    · exact ⟨a :: x, by simp [List.dropWhile, ha]⟩

/-- An entry whose name has no white space starts with that name. -/
theorem TrimSpace_name_prefix (n t : String) (hn : spaceFree n = true) :
    n.data <+: (TrimSpace (n ++ " " ++ t)).data := by
  rw [spaceFree_iff] at hn
  obtain ⟨c, m, hc⟩ := List.exists_cons_of_ne_nil hn.1
  have hdata : (n ++ " " ++ t).data = n.data ++ (' ' :: t.data) := by
    simp [String.data_append]
  show n.data <+: trimChars (n ++ " " ++ t).data
  rw [hdata]
  unfold trimChars
  have h1 : (n.data ++ ' ' :: t.data).dropWhile isSpace = n.data ++ ' ' :: t.data := by
    rw [hc]; exact dropWhile_head (hn.2 c (by simp [hc]))
  rw [h1, List.reverse_append]
  have hne : n.data.reverse ≠ [] := by simpa using hn.1
  obtain ⟨e, m2, he⟩ := List.exists_cons_of_ne_nil hne
  have hesp : isSpace e = false :=
    hn.2 e (List.mem_reverse.1 (by rw [he]; simp))
  obtain ⟨x1, hx⟩ := dropWhile_append_keep isSpace (' ' :: t.data).reverse
    n.data.reverse e m2 he hesp
  rw [hx, List.reverse_append, List.reverse_reverse]
  exact ⟨x1.reverse, rfl⟩

theorem errEntry_lor_name (m : FormatMode) : errEntry (m ||| NeedName) = errEntry m := by
  simp only [errEntry, has_lor_name_error, has_lor_name_type]

theorem resultsRun_named (reflect : Expr → String) (m : FormatMode) (l : List Field) :
    ∀ (i : Nat), (∀ f ∈ l.dropLast, f.Names ≠ []) →
      resultsRun reflect m i l = resultsRun reflect (m ||| NeedName) i l := by
  induction l with
  | nil => intro i _; rfl
  | cons f rest ih =>
    intro i hn
    cases rest with
    | nil => rfl
    | cons g rest =>
      have hd : (f :: g :: rest).dropLast = f :: (g :: rest).dropLast := rfl
      rw [hd] at hn
      have hf := hn f (by simp)
      have hr : ∀ x, resultType reflect (m ||| NeedName) i x = resultType reflect m i x := by
        intro x; simp only [resultType, has_lor_name_type]
      rw [resultsRun_cons_cons, resultsRun_cons_cons,
        ← ih (i + 1) (fun x hx => hn x (List.mem_cons_of_mem _ hx)),
        synthName_of_named _ _ _ hf, synthName_of_named _ _ _ hf, hr]

theorem resultsRun_named_prefix (reflect : Expr → String) (m : FormatMode) (l : List Field) :
    ∀ (i : Nat) (fs : List Field) (es : List String),
      (∀ f ∈ l.dropLast, f.Names ≠ []) →
      (∀ f ∈ l.dropLast, namesSpaceFree f = true) →
      resultsRun reflect m i l = .ok (fs, es) →
      List.Forall₂ (fun f e => (firstName f).data <+: e.data) l.dropLast es := by
  induction l with
  | nil =>
    intro i fs es _ _ hr
    simp [resultsRun] at hr
    obtain ⟨h1, h2⟩ := hr
    subst_vars
    exact List.Forall₂.nil
  | cons f rest ih =>
    intro i fs es hn hsf hr
    cases rest with
    | nil =>
      simp [resultsRun] at hr
      obtain ⟨h1, h2⟩ := hr
      subst_vars
      exact List.Forall₂.nil
    | cons g rest =>
      have hd : (f :: g :: rest).dropLast = f :: (g :: rest).dropLast := rfl
      rw [hd] at hn hsf ⊢
      have hf := hn f (by simp)
      rw [resultsRun_cons_cons, synthName_of_named _ _ _ hf] at hr
      cases hty : resultType reflect m i f with
      | error e => simp [hty] at hr
      | ok typ =>
        cases hrun : resultsRun reflect m (i + 1) (g :: rest) with
        | error e => simp [hty, hrun] at hr
        | ok p =>
          obtain ⟨fs1, es1⟩ := p
          simp [hty, hrun] at hr
          obtain ⟨h1, h2⟩ := hr
          subst_vars
          refine List.Forall₂.cons ?_ (ih (i + 1) fs1 es1
            (fun x hx => hn x (List.mem_cons_of_mem _ hx))
            (fun x hx => hsf x (List.mem_cons_of_mem _ hx)) hrun)
          apply TrimSpace_name_prefix
          have hall := List.all_eq_true.1 (hsf f (by simp))
          cases hN : f.Names with
          | nil => exact absurd hN hf
          | cons n ns => simpa [firstName, hN] using hall n (by simp [hN])

/-- C4: for every non-nil result list, the text of `FormatResults` with
`NeedName|NeedError` is the text `s` with `NeedName` followed by `", err"` when
the list has at least two fields and is `"err"` when it has zero or one field,
named results or not; and the call with `NeedName` made after it, on the list
it left, returns `s` again. -/
theorem FormatResults_assigned_eq_returned_err (reflect : Expr → String) (l : List Field) :
    ∃ s l1,
      FormatResults reflect (some l) NeedName = .ok (s, some l1) ∧
      FormatResults reflect (some l) (NeedName ||| NeedError) =
        .ok (if 2 ≤ l.length then s ++ ", err" else "err", some l1) ∧
      FormatResults reflect (some l1) NeedName = .ok (s, some l1) := by
  obtain ⟨fs, es, hrun⟩ :=
    resultsRun_ok_of_not_NeedType reflect NeedName has_NeedName_NeedType l 0
  have hrun5 : resultsRun reflect (NeedName ||| NeedError) 0 l = .ok (fs, es) := by
    rw [resultsRun_congr reflect (NeedName ||| NeedError) NeedName
      (by rw [has_NameError_NeedName, has_NeedName_NeedName])
      (by rw [has_NameError_NeedType, has_NeedName_NeedType]) l 0]
    exact hrun
  have hagain := resultsRun_again reflect NeedName l 0 fs es hrun
  have hlen := (resultsRun_length reflect NeedName l 0 fs es hrun).2
  have e1 : errEntry NeedName = [] := by
    simp [errEntry, has_NeedName_NeedError]
  have e5 : errEntry (NeedName ||| NeedError) = ["err"] := by
    simp [errEntry, has_NameError_NeedError, has_NameError_NeedType]
  refine ⟨Join es ", ", fs, ?_, ?_, ?_⟩
  · rw [FormatResults_eq_run, hrun, e1]; simp
  · rw [FormatResults_eq_run, hrun5, e5]
    by_cases h2 : 2 ≤ l.length
    · have hne : es ≠ [] := by
        intro h0; rw [h0] at hlen; simp at hlen; omega
      simp only [h2, if_true, Join_append_one es "err" ", " hne, String.append_assoc]
      rfl
    · have h0 : es = [] := by
        apply List.eq_nil_of_length_eq_zero; omega
      simp [h2, h0, Join]
  · rw [FormatResults_eq_run, hagain, e1]; simp

/-- C5: when every field of a result list before the last has a name, the
result of `FormatResults` is the same with and without the `NeedName` bit, for
every mode; and, the names being identifiers, the text is the join of one entry
per field before the last, each starting with the first name of its field,
followed by the `err` entry the mode asks for. -/
theorem FormatResults_keeps_source_names (reflect : Expr → String) (l : List Field)
    (m : FormatMode) (hnamed : ∀ f ∈ l.dropLast, f.Names ≠ []) :
    FormatResults reflect (some l) m = FormatResults reflect (some l) (m ||| NeedName) ∧
    ((∀ f ∈ l.dropLast, namesSpaceFree f = true) →
      ∀ s l1, FormatResults reflect (some l) m = .ok (s, l1) →
        ∃ es, s = Join (es ++ errEntry m) ", " ∧
          List.Forall₂ (fun f e => (firstName f).data <+: e.data) l.dropLast es) := by
  constructor
  · rw [FormatResults_eq_run, FormatResults_eq_run, errEntry_lor_name,
      ← resultsRun_named reflect m l 0 hnamed]
  · intro hsf s l1 hres
    rw [FormatResults_eq_run] at hres
    cases hrun : resultsRun reflect m 0 l with
    | error e => simp [hrun] at hres
    | ok p =>
      obtain ⟨fs, es⟩ := p
      simp [hrun] at hres
      exact ⟨es, hres.1.symm, resultsRun_named_prefix reflect m l 0 fs es hnamed hsf hrun⟩

theorem FormatResults_keeps_source_names_witness :
    FormatResults reflectStub (some named_results_list) NeedType =
        .ok ("str string, n int", some named_results_list) ∧
      FormatResults reflectStub (some named_results_list) NeedType =
        FormatResults reflectStub (some named_results_list) (NeedType ||| NeedName) ∧
      ∃ es, "str string, n int" = Join (es ++ errEntry NeedType) ", " ∧
        List.Forall₂ (fun f e => (firstName f).data <+: e.data)
          named_results_list.dropLast es :=
  ⟨rfl,
    (FormatResults_keeps_source_names reflectStub named_results_list NeedType
      (by decide)).1,
    (FormatResults_keeps_source_names reflectStub named_results_list NeedType
      (by decide)).2 (by decide) "str string, n int" (some named_results_list) rfl⟩

theorem FormatParams_loop_ok (reflect : Expr → String) (mode : FormatMode)
    (l : List Field) : ∀ (params : List String),
    (∀ f ∈ l, ¬ paramRejected reflect mode f) →
    FormatParams.loop reflect mode l params =
      .ok (params ++ l.map (paramEntry reflect mode)) := by
  induction l with
  | nil => intro params _; simp [FormatParams.loop]
  | cons f rest ih =>
    intro params hok
    have hf := hok f (by simp)
    have ih1 := fun p => ih p (fun x hx => hok x (List.mem_cons_of_mem _ hx))
    unfold paramRejected at hf
    rw [FormatParams.loop]
    cases hN : has mode NeedName <;> cases hT : has mode NeedType
    · simp [ih1, paramEntry, paramName, paramType, hN, hT]
    · cases hty : f.Typ with
      | none => simp [hN, hT, hty] at hf
      | some t =>
        cases hft : formatType reflect t with
        | error e => simp [hN, hT, hty, hft] at hf
        | ok s => simp [ih1, paramEntry, paramName, paramType, hN, hT, hty, hft]
    · cases hnm : f.Names with
      | nil => simp [hN, hT, hnm] at hf
      | cons n ns => simp [ih1, paramEntry, paramName, paramType, firstName, hN, hT, hnm]
    · cases hnm : f.Names with
      | nil => simp [hN, hT, hnm] at hf
      | cons n ns =>
        cases hty : f.Typ with
        | none => simp [hN, hT, hty] at hf
        | some t =>
          cases hft : formatType reflect t with
          | error e => simp [hN, hT, hty, hft] at hf
          | ok s =>
            simp [ih1, paramEntry, paramName, paramType, firstName, hN, hT, hnm, hty, hft]

theorem FormatParams_loop_error (reflect : Expr → String) (mode : FormatMode)
    (l : List Field) : ∀ (params : List String),
    (∃ f ∈ l, paramRejected reflect mode f) →
    ∃ e, FormatParams.loop reflect mode l params = .error e := by
  induction l with
  | nil => intro params h; obtain ⟨f, hf, _⟩ := h; simp at hf
  | cons f rest ih =>
    intro params h
    by_cases hf : paramRejected reflect mode f
    · unfold paramRejected at hf
      rw [FormatParams.loop]
      rcases hf with ⟨hN, hnm⟩ | ⟨hT, hty⟩
      · simp [hN, hnm]
      · cases hnm : (if has mode NeedName = true then
            (match f.Names with
              | [] => Except.error Fatal.paramNoName
              | n :: _ => Except.ok n)
          else Except.ok "" : Except Fatal String) with
        | error e => exact ⟨e, by simp⟩
        | ok name =>
          rcases hty with hnone | ⟨t, e, hsome, herr⟩
          · exact ⟨Fatal.paramNoType, by simp [hT, hnone]⟩
          · exact ⟨e, by simp [hT, hsome, herr]⟩
    · obtain ⟨x, hx, hbad⟩ := h
      have hxr : x ∈ rest := by
        rcases List.mem_cons.1 hx with h1 | h1
        · exact absurd (h1 ▸ hbad) hf
        · exact h1
      have hok := FormatParams_loop_ok reflect mode [f] params
        (by intro y hy; simp at hy; exact hy ▸ hf)
      obtain ⟨e, he⟩ := ih (params ++ [paramEntry reflect mode f]) ⟨x, hxr, hbad⟩
      refine ⟨e, ?_⟩
      rw [FormatParams.loop] at hok ⊢
      revert hok
      cases (if has mode NeedName = true then
            (match f.Names with
              | [] => Except.error Fatal.paramNoName
              | n :: _ => Except.ok n)
          else Except.ok "" : Except Fatal String) with
      | error e1 => simp
      | ok name =>
        simp only
        cases (if has mode NeedType = true then
            (match f.Typ with
              | none => Except.error Fatal.paramNoType
              | some t => formatType reflect t)
          else Except.ok "" : Except Fatal String) with
        | error e1 => simp
        | ok typ =>
          simp only [FormatParams.loop, List.map_cons, List.map_nil, Except.ok.injEq]
          intro h1
          have : TrimSpace (name ++ " " ++ typ) = paramEntry reflect mode f := by
            have := List.append_cancel_left h1
            simpa using this
          rw [this]; exact he

/-- C10: for a non-nil parameter list and any mode, `FormatParams` fails exactly
when `NeedName` is set and some field has no name, or `NeedType` is set and some
field has no type or a type `formatType` rejects; otherwise it returns the
`", "`-join of one entry per field, in order, whose name part is the first name
of the field itself (under `NeedName`) or empty: no name is synthesized. -/
theorem FormatParams_fails_iff (reflect : Expr → String) (l : List Field)
    (mode : FormatMode) :
    ((∃ e, FormatParams reflect (some l) mode = .error e) ↔
      ((has mode NeedName = true ∧ ∃ f ∈ l, f.Names = []) ∨
       (has mode NeedType = true ∧ ∃ f ∈ l,
          f.Typ = none ∨ ∃ t e, f.Typ = some t ∧ formatType reflect t = .error e))) ∧
    ((¬ ∃ e, FormatParams reflect (some l) mode = .error e) →
      FormatParams reflect (some l) mode =
        .ok (Join (l.map (paramEntry reflect mode)) ", ")) := by
  have hcond : ((has mode NeedName = true ∧ ∃ f ∈ l, f.Names = []) ∨
       (has mode NeedType = true ∧ ∃ f ∈ l,
          f.Typ = none ∨ ∃ t e, f.Typ = some t ∧ formatType reflect t = .error e)) ↔
      ∃ f ∈ l, paramRejected reflect mode f := by
    unfold paramRejected
    constructor
    · rintro (⟨hN, f, hf, h⟩ | ⟨hT, f, hf, h⟩)
      · exact ⟨f, hf, Or.inl ⟨hN, h⟩⟩
      · exact ⟨f, hf, Or.inr ⟨hT, h⟩⟩
    · rintro ⟨f, hf, ⟨hN, h⟩ | ⟨hT, h⟩⟩
      · exact Or.inl ⟨hN, f, hf, h⟩
      · exact Or.inr ⟨hT, f, hf, h⟩
  have hok : (¬ ∃ f ∈ l, paramRejected reflect mode f) →
      FormatParams reflect (some l) mode =
        .ok (Join (l.map (paramEntry reflect mode)) ", ") := by
    intro h
    have := FormatParams_loop_ok reflect mode l []
      (fun f hf hbad => h ⟨f, hf, hbad⟩)
    simp [FormatParams, this]
  have hiff : (∃ e, FormatParams reflect (some l) mode = .error e) ↔
      ∃ f ∈ l, paramRejected reflect mode f := by
    constructor
    · rintro ⟨e, he⟩
      by_contra h
      rw [hok h] at he
      exact absurd he (by simp)
    · intro h
      obtain ⟨e, he⟩ := FormatParams_loop_error reflect mode l [] h
      exact ⟨e, by simp [FormatParams, he]⟩
  exact ⟨hiff.trans hcond.symm, fun h => hok (fun h1 => h (hiff.2 h1))⟩

theorem FormatParams_fails_iff_witness :
    FormatParams reflectStub args_in.Typ.Params (NeedName ||| NeedType) =
      .ok (Join (["str string", "n int"]) ", ") :=
  (FormatParams_fails_iff reflectStub
    [⟨["str"], ident "string"⟩, ⟨["n"], ident "int"⟩] (NeedName ||| NeedType)).2
    (fun ⟨_, he⟩ => by
      have h : FormatParams reflectStub
          (some [⟨["str"], ident "string"⟩, ⟨["n"], ident "int"⟩]) (NeedName ||| NeedType) =
          .ok "str string, n int" := by decide
      rw [h] at he
      cases he)

/-- C8 (the code at a field that declares two names): for the parameters of
`func F(a, b int) error`, `FormatParams` gives `a int` for the signature and
`a` for the call; the name `b` is in neither. -/
theorem FormatParams_grouped_names_first_only :
    FormatParams reflectStub (some grouped_params) (NeedName ||| NeedType) = .ok "a int" ∧
    FormatParams reflectStub (some grouped_params) NeedName = .ok "a" := by
  decide

theorem formatType_error (reflect : Expr → String) (t : Expr) (e : Fatal)
    (h : formatType reflect t = .error e) : e = Fatal.unknownType t := by
  cases t <;> simp [formatType] at h <;> exact h.symm

theorem FormatReceiver_error_kind (reflect : Expr → String) (fl : FieldList)
    (mode : FormatMode) (e : Fatal) (h : FormatReceiver reflect fl mode = .error e)
    (N : String) : e ≠ Fatal.declNotFound N := by
  rintro rfl
  unfold FormatReceiver at h
  split at h
  · simp at h
  · rename_i field
    cases hN : has mode NeedName <;> cases hT : has mode NeedType <;>
      cases hnm : field.Names <;> cases hty : field.Typ <;>
      simp [hN, hT, hnm, hty] at h <;>
      (try (split at h <;> simp at h)) <;>
      (rename_i heq; have := formatType_error _ _ _ heq; rw [h] at this; simp at this)
  · simp at h

theorem FormatParams_loop_error_kind (reflect : Expr → String) (mode : FormatMode)
    (l : List Field) : ∀ (params : List String) (e : Fatal),
    FormatParams.loop reflect mode l params = .error e →
    ∀ N : String, e ≠ Fatal.declNotFound N := by
  induction l with
  | nil => intro params e h; simp [FormatParams.loop] at h
  | cons f rest ih =>
    intro params e h N
    rintro rfl
    rw [FormatParams.loop] at h
    cases hN : has mode NeedName <;> cases hT : has mode NeedType <;>
      cases hnm : f.Names <;> cases hty : f.Typ <;>
      simp [hN, hT, hnm, hty] at h <;>
      (try exact ih _ _ h N rfl) <;>
      (split at h) <;>
      (first
        | exact ih _ _ h N rfl
        | (rename_i heq; simp at h; subst h
           have := formatType_error _ _ _ heq; simp at this))

theorem FormatParams_error_kind (reflect : Expr → String) (fl : FieldList)
    (mode : FormatMode) (e : Fatal) (h : FormatParams reflect fl mode = .error e)
    (N : String) : e ≠ Fatal.declNotFound N := by
  cases fl with
  | none => simp [FormatParams] at h
  | some l =>
    unfold FormatParams at h
    simp only at h
    cases hl : FormatParams.loop reflect mode l [] with
    | ok p => simp [hl] at h
    | error e1 =>
      simp [hl] at h
      subst h
      exact FormatParams_loop_error_kind reflect mode l [] e1 hl N

theorem resultsRun_error_kind (reflect : Expr → String) (mode : FormatMode)
    (l : List Field) : ∀ (i : Nat) (e : Fatal),
    resultsRun reflect mode i l = .error e → ∀ N : String, e ≠ Fatal.declNotFound N := by
  induction l with
  | nil => intro i e h; simp [resultsRun] at h
  | cons f rest ih =>
    intro i e h N
    cases rest with
    | nil => simp [resultsRun] at h
    | cons g rest =>
      rw [resultsRun_cons_cons] at h
      cases hty : resultType reflect mode i (synthName mode i f) with
      | error e1 =>
        simp [hty] at h
        subst h
        unfold resultType at hty
        split at hty
        · split at hty
          · simp at hty; subst hty; simp
          · have := formatType_error _ _ _ hty; subst this; simp
        · simp at hty
      | ok typ =>
        cases hrun : resultsRun reflect mode (i + 1) (g :: rest) with
        | error e1 =>
          simp [hty, hrun] at h
          subst h
          exact ih (i + 1) e1 hrun N
        | ok p => simp [hty, hrun] at h

theorem FormatResults_error_kind (reflect : Expr → String) (fl : FieldList)
    (mode : FormatMode) (e : Fatal) (h : FormatResults reflect fl mode = .error e)
    (N : String) : e ≠ Fatal.declNotFound N := by
  cases fl with
  | none => simp [FormatResults] at h
  | some l =>
    rw [FormatResults_eq_run] at h
    cases hrun : resultsRun reflect mode 0 l with
    | ok p => simp [hrun] at h
    | error e1 =>
      simp [hrun] at h
      subst h
      exact resultsRun_error_kind reflect mode l 0 e1 hrun N

theorem FormatResults_frame (reflect : Expr → String) (mode : FormatMode)
    (h : has mode NeedName = false) (fl : FieldList) (s : String) (fl1 : FieldList)
    (hr : FormatResults reflect fl mode = .ok (s, fl1)) : fl1 = fl := by
  cases fl with
  | none => simp [FormatResults] at hr; exact hr.2.symm
  | some l =>
    rw [FormatResults_eq_run] at hr
    cases hrun : resultsRun reflect mode 0 l with
    | error e => simp [hrun] at hr
    | ok p =>
      obtain ⟨fs, es⟩ := p
      simp [hrun] at hr
      rw [← hr.2, resultsRun_frame reflect mode h l 0 fs es hrun]

theorem FormatResults_return_after_assign (reflect : Expr → String) (fl : FieldList)
    (sA sR : String) (fl2 fl3 : FieldList)
    (hA : FormatResults reflect fl (NeedName ||| NeedError) = .ok (sA, fl2))
    (hR : FormatResults reflect fl NeedName = .ok (sR, fl3)) :
    FormatResults reflect fl2 NeedName = .ok (sR, fl2) := by
  cases fl with
  | none =>
    simp [FormatResults] at hA hR
    obtain ⟨_, h2⟩ := hA
    obtain ⟨h3, _⟩ := hR
    subst_vars
    rfl
  | some l =>
    rw [FormatResults_eq_run] at hA hR
    rw [resultsRun_congr reflect (NeedName ||| NeedError) NeedName
      (by rw [has_NameError_NeedName, has_NeedName_NeedName])
      (by rw [has_NameError_NeedType, has_NeedName_NeedType]) l 0] at hA
    cases hrun : resultsRun reflect NeedName 0 l with
    | error e => simp [hrun] at hR
    | ok p =>
      obtain ⟨fs, es⟩ := p
      simp [hrun] at hA hR
      obtain ⟨_, h2⟩ := hA
      obtain ⟨h3, _⟩ := hR
      subst h2 h3
      rw [FormatResults_eq_run, resultsRun_again reflect NeedName l 0 fs es hrun]

/-- The text `generate` appends when the formatters succeed on the located
declaration. -/
theorem generate_ok_buf (reflect : Expr → String) (g : Generator) (N : String)
    (ref : DeclRef)
    (recvDecl paramsDecl resDecl resAssign recvCall paramsCall resReturn : String)
    (l1 l2 l3 : FieldList)
    (hfind : findDecl N 0 g.pkg.Syntax none = some ref)
    (h1 : FormatReceiver reflect ref.node.Recv (NeedName ||| NeedType) = .ok recvDecl)
    (h2 : FormatParams reflect ref.node.Typ.Params (NeedName ||| NeedType) = .ok paramsDecl)
    (h3 : FormatResults reflect ref.node.Typ.Results NeedType = .ok (resDecl, l1))
    (h4 : FormatResults reflect ref.node.Typ.Results (NeedName ||| NeedError) =
      .ok (resAssign, l2))
    (h5 : FormatReceiver reflect ref.node.Recv NeedName = .ok recvCall)
    (h6 : FormatParams reflect ref.node.Typ.Params NeedName = .ok paramsCall)
    (h7 : FormatResults reflect ref.node.Typ.Results NeedName = .ok (resReturn, l3)) :
    ∃ g1, generate reflect g N = .ok g1 ∧
      g1.buf = g.buf ++
        ("// Must" ++ N ++ " is like " ++ N ++ " except it panics if " ++ N ++ " errors.\n" ++
         "func " ++ recvDecl ++ " Must" ++ N ++ "(" ++ paramsDecl ++ ") (" ++ resDecl ++
           ") \x7b \n" ++
         "\t" ++ resAssign ++ " := " ++ recvCall ++ N ++ "(" ++ paramsCall ++ ")\n" ++
         "\tif err != nil \x7b\n\t\tpanic(err)\n\t\x7d\n" ++
         "\treturn " ++ resReturn ++ "\n\x7d") := by
  have e1 : l1 = ref.node.Typ.Results :=
    FormatResults_frame reflect NeedType has_NeedType_NeedName _ _ _ h3
  subst e1
  have h7b := FormatResults_return_after_assign reflect _ _ _ _ _ h4 h7
  simp only [generate, hfind, bind, Except.bind, orExit, h1, h2, h3, h4, h5, h6, h7b, pure,
    Except.pure]
  refine ⟨_, rfl, ?_⟩
  simp only [String.append_assoc]
  rfl

theorem inspectDecls_eq_none (N : String) (fi : Nat) (decls : List Decl) :
    ∀ (di : Nat) (acc : Option DeclRef),
    inspectDecls N fi di decls acc = none ↔
      acc = none ∧ ∀ d, Decl.funcDecl d ∈ decls → d.Name ≠ N := by
  induction decls with
  | nil => intro di acc; simp [inspectDecls]
  | cons x rest ih =>
    intro di acc
    cases x with
    | genDecl =>
      rw [inspectDecls, ih]
      simp
    | funcDecl n =>
      rw [inspectDecls]
      by_cases hn : n.Name = N
      · simp only [hn, if_true, ih]
        constructor
        · rintro ⟨h, _⟩; simp at h
        · rintro ⟨_, h⟩; exact absurd hn (h n (by simp))
      · simp only [hn, if_false, ih]
        constructor
        · rintro ⟨h1, h2⟩
          refine ⟨h1, ?_⟩
          intro d hd
          rcases List.mem_cons.1 hd with h | h
          · cases h; exact hn
          · exact h2 d h
        · rintro ⟨h1, h2⟩
          exact ⟨h1, fun d hd => h2 d (List.mem_cons_of_mem _ hd)⟩

theorem findDecl_eq_none (N : String) (files : List File) :
    ∀ (fi : Nat) (acc : Option DeclRef),
    findDecl N fi files acc = none ↔
      acc = none ∧ ∀ file ∈ files, ∀ d, Decl.funcDecl d ∈ file.Decls → d.Name ≠ N := by
  induction files with
  | nil => intro fi acc; simp [findDecl]
  | cons file rest ih =>
    intro fi acc
    rw [findDecl, ih, inspectDecls_eq_none]
    simp only [List.mem_cons, forall_eq_or_imp]
    tauto

theorem generate_found_not_lookup (reflect : Expr → String) (g : Generator) (N : String)
    (ref : DeclRef) (hfind : findDecl N 0 g.pkg.Syntax none = some ref)
    (x : Exit) (hx : generate reflect g N = .error x) (M : String) :
    x.fatal ≠ Fatal.declNotFound M := by
  simp only [generate, hfind, bind, Except.bind, pure, Except.pure] at hx
  repeat
    first
    | (split at hx
       · rename_i heq
         unfold orExit at heq
         split at heq
         · simp at heq
         · simp at heq hx
           subst hx
           subst heq
           first
           | exact FormatReceiver_error_kind _ _ _ _ (by assumption) M
           | exact FormatParams_error_kind _ _ _ _ (by assumption) M
           | exact FormatResults_error_kind _ _ _ _ (by assumption) M)
    | simp at hx

/-- C1: for a located declaration named `N` on which the formatters succeed,
`generate` appends to the buffer exactly the comment line, the signature line
(receiver and parameters with names and types, results with types), the
assignment line (results with names and `err`, receiver prefix, parameters by
name), the error check and the return line (results with names). The result
fragments are those of the declaration as it is found, and they are also what
the three calls return when made in the order signature, assignment, return,
each on the list the call before it left. -/
theorem generate_appends_wrapper (reflect : Expr → String) (g : Generator) (N : String)
    (ref : DeclRef)
    (recvDecl paramsDecl resDecl resAssign recvCall paramsCall resReturn : String)
    (l1 l2 l3 : FieldList)
    (hfind : findDecl N 0 g.pkg.Syntax none = some ref)
    (h1 : FormatReceiver reflect ref.node.Recv (NeedName ||| NeedType) = .ok recvDecl)
    (h2 : FormatParams reflect ref.node.Typ.Params (NeedName ||| NeedType) = .ok paramsDecl)
    (h3 : FormatResults reflect ref.node.Typ.Results NeedType = .ok (resDecl, l1))
    (h4 : FormatResults reflect ref.node.Typ.Results (NeedName ||| NeedError) =
      .ok (resAssign, l2))
    (h5 : FormatReceiver reflect ref.node.Recv NeedName = .ok recvCall)
    (h6 : FormatParams reflect ref.node.Typ.Params NeedName = .ok paramsCall)
    (h7 : FormatResults reflect ref.node.Typ.Results NeedName = .ok (resReturn, l3)) :
    (∃ g1, generate reflect g N = .ok g1 ∧
      g1.buf = g.buf ++
        ("// Must" ++ N ++ " is like " ++ N ++ " except it panics if " ++ N ++ " errors.\n" ++
         "func " ++ recvDecl ++ " Must" ++ N ++ "(" ++ paramsDecl ++ ") (" ++ resDecl ++
           ") \x7b \n" ++
         "\t" ++ resAssign ++ " := " ++ recvCall ++ N ++ "(" ++ paramsCall ++ ")\n" ++
         "\tif err != nil \x7b\n\t\tpanic(err)\n\t\x7d\n" ++
         "\treturn " ++ resReturn ++ "\n\x7d")) ∧
    FormatResults reflect l1 (NeedName ||| NeedError) = .ok (resAssign, l2) ∧
    FormatResults reflect l2 NeedName = .ok (resReturn, l2) := by
  refine ⟨generate_ok_buf reflect g N ref recvDecl paramsDecl resDecl resAssign recvCall
    paramsCall resReturn l1 l2 l3 hfind h1 h2 h3 h4 h5 h6 h7, ?_, ?_⟩
  · rw [FormatResults_frame reflect NeedType has_NeedType_NeedName _ _ _ h3]
    exact h4
  · exact FormatResults_return_after_assign reflect _ _ _ _ _ h4 h7

/-- C1 (witness): the raw text `generate` appends for
`func Args(str string, n int) error`. -/
theorem generate_appends_wrapper_witness :
    ∃ g1, generate reflectStub (generatorOn [args_in]) "Args" = .ok g1 ∧
      g1.buf = "" ++
        ("// MustArgs is like Args except it panics if Args errors.\n" ++
         "func  MustArgs(str string, n int) () \x7b \n" ++
         "\terr := Args(str, n)\n" ++
         "\tif err != nil \x7b\n\t\tpanic(err)\n\t\x7d\n" ++
         "\treturn \n\x7d") :=
  (generate_appends_wrapper reflectStub (generatorOn [args_in]) "Args" ⟨0, 0, args_in⟩
    "" "str string, n int" "" "err" "" "str, n" ""
    args_in.Typ.Results args_in.Typ.Results args_in.Typ.Results
    (by decide) (by decide) (by decide) (by decide) (by decide) (by decide) (by decide)
    (by decide)).1

/-- C6 (the code on duplicate names): with `func (a A) Run() error` declared
before `func (b B) Run() error`, in one file or in two, the search of `generate`
ends on the later declaration, and the wrapper is emitted for it. -/
theorem generate_uses_last_match :
    findDecl "Run" 0 (generatorOn [run_of_A, run_of_B]).pkg.Syntax none =
        some ⟨0, 1, run_of_B⟩ ∧
    findDecl "Run" 0 [⟨[Decl.funcDecl run_of_A]⟩, ⟨[Decl.funcDecl run_of_B]⟩] none =
        some ⟨1, 0, run_of_B⟩ ∧
    (generate reflectStub (generatorOn [run_of_A, run_of_B]) "Run").toOption.map
        (fun g => g.buf) =
      some ("// MustRun is like Run except it panics if Run errors.\n" ++
        "func (b B) MustRun() () \x7b \n" ++
        "\terr := b.Run()\n" ++
        "\tif err != nil \x7b\n\t\tpanic(err)\n\t\x7d\n" ++
        "\treturn \n\x7d") := by
  refine ⟨?_, ?_, ?_⟩ <;> decide

/-- C7: `generate` exits with the lookup error exactly when no function or
method declaration of any file of the package has the requested name, and the
buffer at that exit is the buffer `generate` was given. -/
theorem generate_lookup_error_iff (reflect : Expr → String) (g : Generator) (N : String) :
    ((∃ b, generate reflect g N = .error ⟨Fatal.declNotFound N, b⟩) ↔
      ∀ file ∈ g.pkg.Syntax, ∀ d, Decl.funcDecl d ∈ file.Decls → d.Name ≠ N) ∧
    (∀ b, generate reflect g N = .error ⟨Fatal.declNotFound N, b⟩ → b = g.buf) := by
  have hnone := findDecl_eq_none N g.pkg.Syntax 0 none
  simp only [true_and] at hnone
  cases hfind : findDecl N 0 g.pkg.Syntax none with
  | none =>
    have hgen : generate reflect g N = .error ⟨Fatal.declNotFound N, g.buf⟩ := by
      simp only [generate, hfind]
    refine ⟨⟨fun _ => hnone.1 hfind, fun _ => ⟨g.buf, hgen⟩⟩, ?_⟩
    intro b hb
    rw [hgen] at hb
    simp at hb
    exact hb.symm
  | some ref =>
    have hno : ∀ b, generate reflect g N ≠ .error ⟨Fatal.declNotFound N, b⟩ := by
      intro b hb
      exact generate_found_not_lookup reflect g N ref hfind _ hb N rfl
    refine ⟨⟨fun ⟨b, hb⟩ => absurd hb (hno b), fun h => ?_⟩, fun b hb => absurd hb (hno b)⟩
    have := hnone.2 h
    rw [hfind] at this
    simp at this

theorem TrimSpace_parens (s : String) : TrimSpace ("(" ++ s ++ ")") = "(" ++ s ++ ")" := by
  have hdata : ("(" ++ s ++ ")").data = '(' :: (s.data ++ [')']) := by
    simp [String.data_append]
  show (⟨trimChars ("(" ++ s ++ ")").data⟩ : String) = _
  rw [hdata, trimChars_keep '(' ')' s.data (by decide) (by decide), ← hdata]

theorem TrimSpace_dot (t : String) (ht : spaceFree t = true) :
    TrimSpace (t ++ ".") = t ++ "." := by
  rw [spaceFree_iff] at ht
  obtain ⟨c, m, hc⟩ := List.exists_cons_of_ne_nil ht.1
  have hdata : (t ++ ".").data = c :: (m ++ ['.']) := by
    simp [String.data_append, hc]
  show (⟨trimChars (t ++ ".").data⟩ : String) = _
  rw [hdata, trimChars_keep c '.' m (ht.2 c (by simp [hc])) (by decide), ← hdata]

/-- C11: for a receiver list of one field named `t` whose type `formatType`
renders as `T`, `FormatReceiver` with `NeedName|NeedType` returns `(t T)`; with
`NeedName` alone it returns `t.`, whatever the type of the field is (a value
receiver, a pointer receiver, or no type at all), and a `*` occurs in that
prefix only if it occurs in the name. -/
theorem FormatReceiver_shapes (reflect : Expr → String) (t T : String) (ty : Expr)
    (ht : spaceFree t = true) (hT : formatType reflect ty = .ok T) :
    FormatReceiver reflect (some [⟨[t], some ty⟩]) (NeedName ||| NeedType) =
        .ok ("(" ++ t ++ " " ++ T ++ ")") ∧
    (∀ ty1 : Option Expr,
      FormatReceiver reflect (some [⟨[t], ty1⟩]) NeedName = .ok (t ++ ".")) ∧
    ('*' ∉ t.data → '*' ∉ (t ++ ".").data) := by
  refine ⟨?_, ?_, ?_⟩
  · simp only [FormatReceiver, has_NameType_NeedName, has_NameType_NeedType, if_true, hT]
    rw [show "(" ++ t ++ " " ++ T ++ ")" = "(" ++ (t ++ " " ++ T) ++ ")" by
      simp only [String.append_assoc]]
    rw [TrimSpace_parens]
  · intro ty1
    simp only [FormatReceiver, has_NeedName_NeedName, has_NeedName_NeedType, if_true]
    simp [TrimSpace_dot t ht]
  · intro h
    simp [String.data_append, h]

theorem FormatReceiver_shapes_witness :
    (FormatReceiver reflectStub receiver_in.Recv (NeedName ||| NeedType) = .ok "(t T)" ∧
      FormatReceiver reflectStub receiver_in.Recv NeedName = .ok "t.") ∧
    (FormatReceiver reflectStub ptr_receiver_in.Recv (NeedName ||| NeedType) = .ok "(t *T)" ∧
      FormatReceiver reflectStub ptr_receiver_in.Recv NeedName = .ok "t.") :=
  ⟨⟨(FormatReceiver_shapes reflectStub "t" "T" (Expr.Ident "T") (by decide) rfl).1,
    (FormatReceiver_shapes reflectStub "t" "T" (Expr.Ident "T") (by decide) rfl).2.1 _⟩,
   ⟨(FormatReceiver_shapes reflectStub "t" "*T" (Expr.StarExpr (Expr.Ident "T"))
      (by decide) rfl).1,
    (FormatReceiver_shapes reflectStub "t" "*T" (Expr.StarExpr (Expr.Ident "T"))
      (by decide) rfl).2.1 _⟩⟩

/-- C13: `formatType` renders the identifier `n` as `n`, a pointer to it as
`*n` and a variadic of it as `...n`. -/
theorem formatType_identifier_shapes (reflect : Expr → String) (n : String) :
    formatType reflect (Expr.Ident n) = .ok n ∧
    formatType reflect (Expr.StarExpr (Expr.Ident n)) = .ok ("*" ++ n) ∧
    formatType reflect (Expr.Ellipsis (Expr.Ident n)) = .ok ("..." ++ n) :=
  ⟨rfl, rfl, rfl⟩

/-- C17: for a nil field list `FormatReceiver`, `FormatParams` and
`FormatResults` return the empty string under every mode and do not fail;
`FormatResults` adds no `err` entry, `NeedError` set or not, and leaves the nil
list. -/
theorem formatters_nil (reflect : Expr → String) (mode : FormatMode) :
    FormatReceiver reflect none mode = .ok "" ∧
    FormatParams reflect none mode = .ok "" ∧
    FormatResults reflect none mode = .ok ("", none) ∧
    FormatResults reflect none (mode ||| NeedError) = .ok ("", none) :=
  ⟨rfl, rfl, rfl, rfl⟩

theorem FormatReceiver_single_error_iff (reflect : Expr → String) (f : Field)
    (mode : FormatMode) :
    (∃ e, FormatReceiver reflect (some [f]) mode = .error e) ↔
      paramRejected reflect mode f := by
  unfold paramRejected
  cases hN : has mode NeedName <;> cases hT : has mode NeedType <;>
    cases hnm : f.Names <;> cases hty : f.Typ <;>
    simp [FormatReceiver, hN, hT, hnm, hty] <;>
    (rename_i t
     cases hft : formatType reflect t <;> simp)

/-- C12: for a non-nil receiver list and any mode, `FormatReceiver` fails
exactly when the list does not have one field, or `NeedName` is set and that
field has no name, or `NeedType` is set and that field has no type or a type
`formatType` rejects; and `generate` exits, at the receiver's name check and
with only the comment line in the buffer, for a located method whose receiver is
unnamed. -/
theorem FormatReceiver_fails_iff (reflect : Expr → String) (l : List Field)
    (mode : FormatMode) :
    ((∃ e, FormatReceiver reflect (some l) mode = .error e) ↔
      (l.length ≠ 1 ∨
       (has mode NeedName = true ∧ ∃ f ∈ l, f.Names = []) ∨
       (has mode NeedType = true ∧ ∃ f ∈ l,
          f.Typ = none ∨ ∃ t e, f.Typ = some t ∧ formatType reflect t = .error e))) ∧
    (∀ (g : Generator) (N : String) (ref : DeclRef),
      findDecl N 0 g.pkg.Syntax none = some ref →
      ref.node.Recv = some l → l.length = 1 → (∀ f ∈ l, f.Names = []) →
      generate reflect g N = .error ⟨Fatal.receiverNoName,
        g.buf ++ ("// Must" ++ N ++ " is like " ++ N ++ " except it panics if " ++ N ++
          " errors.\n")⟩) := by
  constructor
  · match l with
    | [] => simp [FormatReceiver]
    | [f] =>
      rw [FormatReceiver_single_error_iff]
      simp [paramRejected]
    | f :: g :: rest => simp [FormatReceiver]
  · intro g N ref hfind hrecv hlen hun
    match l, hlen, hun with
    | [f], _, hun =>
      have hf : f.Names = [] := hun f (by simp)
      simp only [generate, hfind, hrecv, FormatReceiver, has_NameType_NeedName, if_true, hf,
        bind, Except.bind, orExit]
      simp only [String.append_assoc]
      rfl

theorem FormatReceiver_fails_iff_witness :
    generate reflectStub (generatorOn [unnamed_receiver_in]) "M" =
      .error ⟨Fatal.receiverNoName,
        "" ++ ("// Must" ++ "M" ++ " is like " ++ "M" ++ " except it panics if " ++ "M" ++
          " errors.\n")⟩ :=
  (FormatReceiver_fails_iff reflectStub [⟨[], ident "T"⟩] (NeedName ||| NeedType)).2
    (generatorOn [unnamed_receiver_in]) "M" ⟨0, 0, unnamed_receiver_in⟩
    (by decide) (by decide) (by decide) (by decide)

/-- C14 (the code on a pointer whose element is not an identifier): whatever
`fmt` prints for the element, `formatType` does not fail on `**T` and on
`*pkg.T`; it returns `*` followed by the print of the element node. The
selector `pkg.T` standing alone does reach the fatal default case. -/
theorem formatType_nested_returns_text (reflect : Expr → String) :
    formatType reflect ptr_ptr_T =
        .ok ("*" ++ reflect (Expr.StarExpr (Expr.Ident "T"))) ∧
    formatType reflect ptr_qualified_T =
        .ok ("*" ++ reflect (Expr.SelectorExpr (Expr.Ident "pkg") "T")) ∧
    (¬ ∃ e, formatType reflect ptr_ptr_T = .error e) ∧
    (¬ ∃ e, formatType reflect ptr_qualified_T = .error e) ∧
    formatType reflect (Expr.SelectorExpr (Expr.Ident "pkg") "T") =
        .error (Fatal.unknownType (Expr.SelectorExpr (Expr.Ident "pkg") "T")) := by
  refine ⟨rfl, rfl, ?_, ?_, rfl⟩ <;> (rintro ⟨e, he⟩; cases he)

theorem FormatParams_names_only (reflect : Expr → String) (l : List Field)
    (hn : ∀ f ∈ l, spaceFree (firstName f) = true) :
    FormatParams reflect (some l) NeedName = .ok (Join (l.map firstName) ", ") := by
  have hnr : ∀ f ∈ l, ¬ paramRejected reflect NeedName f := by
    intro f hf hbad
    have h1 := hn f hf
    rcases hbad with ⟨_, hnm⟩ | ⟨hT, _⟩
    · simp [firstName, hnm] at h1
      exact absurd h1 (by decide)
    · rw [has_NeedName_NeedType] at hT; cases hT
  have hloop := FormatParams_loop_ok reflect NeedName l [] hnr
  have he : l.map (paramEntry reflect NeedName) = l.map firstName := by
    apply List.map_congr_left
    intro f hf
    simp only [paramEntry, paramName, paramType, has_NeedName_NeedName,
      has_NeedName_NeedType, if_true]
    exact TrimSpace_name_only _ (hn f hf)
  simp only [FormatParams, hloop, List.nil_append, he]

/-- C19: for a parameter list whose fields are all named (with identifiers),
`FormatParams` with `NeedName` alone returns the `", "`-join of the first name
of each field and does not fail, whatever the types of the fields are, absent
and unsupported ones included; a variadic parameter is forwarded as its bare
name. -/
theorem FormatParams_call_ignores_types (reflect : Expr → String) (l : List Field)
    (hn : ∀ f ∈ l, spaceFree (firstName f) = true) :
    FormatParams reflect (some l) NeedName = .ok (Join (l.map firstName) ", ") ∧
    (∀ types : List (Option Expr), types.length = l.length →
      FormatParams reflect
          (some (List.zipWith (fun f ty => { f with Typ := ty }) l types)) NeedName =
        .ok (Join (l.map firstName) ", ")) := by
  refine ⟨FormatParams_names_only reflect l hn, ?_⟩
  intro types hlen
  have hmap : (List.zipWith (fun (f : Field) (ty : Option Expr) => { f with Typ := ty })
      l types).map firstName = l.map firstName := by
    induction l generalizing types with
    | nil => simp
    | cons f rest ih =>
      cases types with
      | nil => simp at hlen
      | cons ty tys =>
        simp only [List.zipWith_cons_cons, List.map_cons]
        rw [ih (fun x hx => hn x (List.mem_cons_of_mem _ hx)) tys (by simpa using hlen)]
        rfl
  rw [← hmap]
  apply FormatParams_names_only
  intro f hf
  have : firstName f ∈ (List.zipWith (fun (f : Field) (ty : Option Expr) =>
      { f with Typ := ty }) l types).map firstName := List.mem_map_of_mem _ hf
  rw [hmap] at this
  obtain ⟨f0, hf0, he⟩ := List.mem_map.1 this
  rw [← he]
  exact hn f0 hf0

theorem FormatParams_call_ignores_types_witness :
    FormatParams reflectStub (some variadic_params) NeedName = .ok "xs" ∧
    FormatParams reflectStub (some [⟨["xs"], none⟩]) NeedName = .ok "xs" :=
  ⟨(FormatParams_call_ignores_types reflectStub variadic_params (by decide)).1,
   (FormatParams_call_ignores_types reflectStub variadic_params (by decide)).2
     [none] rfl⟩

theorem digitChar_value (d : Nat) (h : d < 10) : (Nat.digitChar d).toNat - 48 = d := by
  interval_cases d <;> rfl

theorem toDigitsCore_decode (fuel : Nat) : ∀ (n : Nat) (ds : List Char), n < fuel →
    List.foldl (fun a c => 10 * a + (c.toNat - 48)) 0 (Nat.toDigitsCore 10 fuel n ds) =
      List.foldl (fun a c => 10 * a + (c.toNat - 48)) n ds := by
  induction fuel with
  | zero => intro n ds h; omega
  | succ fuel ih =>
    intro n ds h
    simp only [Nat.toDigitsCore]
    split
    · rename_i h0
      simp only [List.foldl_cons, Nat.mul_zero, Nat.zero_add]
      rw [digitChar_value _ (Nat.mod_lt _ (by decide))]
      have : n % 10 = n := by omega
      rw [this]
    · rename_i h0
      rw [ih (n / 10) _ (by omega)]
      simp only [List.foldl_cons]
      rw [digitChar_value _ (Nat.mod_lt _ (by decide))]
      have : 10 * (n / 10) + n % 10 = n := Nat.div_add_mod n 10
      rw [this]

theorem toString_nat_injective (i j : Nat) (h : toString i = toString j) : i = j := by
  have hi := toDigitsCore_decode (i + 1) i [] (by omega)
  have hj := toDigitsCore_decode (j + 1) j [] (by omega)
  have hd : Nat.toDigitsCore 10 (i + 1) i [] = Nat.toDigitsCore 10 (j + 1) j [] := by
    have : (toString i).data = (toString j).data := by rw [h]
    exact this
  rw [hd] at hi
  simpa using hi.symm.trans hj

theorem synth_text_injective (i j : Nat) (h : "r" ++ toString i = "r" ++ toString j) :
    i = j := by
  apply toString_nat_injective
  have hd : ("r" ++ toString i).data = ("r" ++ toString j).data := by rw [h]
  simp only [String.data_append] at hd
  exact String.ext (List.append_cancel_left hd)

/-- The fields the loop of `FormatResults` leaves: before the last, the field
after the name assignment; the last one as it was. -/
theorem resultsRun_fields (reflect : Expr → String) (mode : FormatMode) (l : List Field) :
    ∀ (i : Nat) (fs : List Field) (es : List String),
      resultsRun reflect mode i l = .ok (fs, es) →
      ∀ (k : Nat) (f : Field), l[k]? = some f →
        fs[k]? = some (if k + 1 < l.length then synthName mode (i + k) f else f) := by
  induction l with
  | nil => intro i fs es _ k f hk; simp at hk
  | cons f0 rest ih =>
    intro i fs es hr k f hk
    cases rest with
    | nil =>
      simp [resultsRun] at hr
      obtain ⟨h1, h2⟩ := hr
      subst_vars
      cases k with
      | zero => simpa using hk
      | succ k => simp at hk
    | cons g rest =>
      rw [resultsRun_cons_cons] at hr
      cases hty : resultType reflect mode i (synthName mode i f0) with
      | error e => simp [hty] at hr
      | ok typ =>
        cases hrun : resultsRun reflect mode (i + 1) (g :: rest) with
        | error e => simp [hty, hrun] at hr
        | ok p =>
          obtain ⟨fs1, es1⟩ := p
          simp [hty, hrun] at hr
          obtain ⟨h1, h2⟩ := hr
          subst_vars
          cases k with
          | zero =>
            simp at hk
            subst hk
            simp
          | succ k =>
            have hk1 : (g :: rest)[k]? = some f := by simpa using hk
            have := ih (i + 1) fs1 es1 hrun k f hk1
            simp only [List.getElem?_cons_succ, this, List.length_cons]
            have e : i + 1 + k = i + (k + 1) := by omega
            rw [e]
            by_cases hlt : k + 1 < rest.length + 1
            · simp [hlt]
            · simp [hlt]

theorem FormatResults_fields (reflect : Expr → String) (l : List Field) (mode : FormatMode)
    (s : String) (l1 : FieldList) (hres : FormatResults reflect (some l) mode = .ok (s, l1)) :
    ∃ fs, l1 = some fs ∧ fs.length = l.length ∧
      ∀ (k : Nat) (f : Field), l[k]? = some f →
        fs[k]? = some (if k + 1 < l.length then synthName mode k f else f) := by
  rw [FormatResults_eq_run] at hres
  cases hrun : resultsRun reflect mode 0 l with
  | error e => simp [hrun] at hres
  | ok p =>
    obtain ⟨fs, es⟩ := p
    simp [hrun] at hres
    refine ⟨fs, hres.2.symm, (resultsRun_length reflect mode l 0 fs es hrun).1, ?_⟩
    intro k f hk
    have := resultsRun_fields reflect mode l 0 fs es hrun k f hk
    simpa using this

/-- C18: when `FormatResults` runs with `NeedName` on a result list, two
different positions `i` and `j` before the last whose fields have no name are
left with the names `r<i>` and `r<j>`, and these are different strings. -/
theorem synthesized_names_unique (reflect : Expr → String) (l : List Field)
    (mode : FormatMode) (s : String) (l1 : FieldList) (i j : Nat) (fi fj : Field)
    (hmode : has mode NeedName = true)
    (hres : FormatResults reflect (some l) mode = .ok (s, l1))
    (hi : l[i]? = some fi) (hj : l[j]? = some fj)
    (hil : i + 1 < l.length) (hjl : j + 1 < l.length)
    (hfi : fi.Names = []) (hfj : fj.Names = []) (hij : i ≠ j) :
    ∃ fs gi gj, l1 = some fs ∧ fs[i]? = some gi ∧ fs[j]? = some gj ∧
      gi.Names = ["r" ++ toString i] ∧ gj.Names = ["r" ++ toString j] ∧
      "r" ++ toString i ≠ "r" ++ toString j := by
  obtain ⟨fs, h1, _, hk⟩ := FormatResults_fields reflect l mode s l1 hres
  refine ⟨fs, synthName mode i fi, synthName mode j fj, h1, ?_, ?_, ?_, ?_, ?_⟩
  · simpa [hil] using hk i fi hi
  · simpa [hjl] using hk j fj hj
  · simp [synthName, hmode, hfi]
  · simp [synthName, hmode, hfj]
  · intro h
    exact hij (synth_text_injective i j h)

theorem synthesized_names_unique_witness :
    ∃ fs gi gj, some results_list_named = some fs ∧ fs[0]? = some gi ∧ fs[1]? = some gj ∧
      gi.Names = ["r" ++ toString 0] ∧ gj.Names = ["r" ++ toString 1] ∧
      "r" ++ toString 0 ≠ "r" ++ toString 1 :=
  synthesized_names_unique reflectStub results_list NeedName "r0, r1"
    (some results_list_named) 0 1 ⟨[], ident "string"⟩ ⟨[], ident "int"⟩
    (by decide) (by decide) (by decide) (by decide) (by decide) (by decide) (by decide)
    (by decide) (by decide)

/-- C15 (counterexample): `FormatResults` with `NeedName` on the results of
`func Results() (string, int, error)` leaves the first two fields with the names
`r0` and `r1`; the list is not as it was before the call. -/
theorem FormatResults_assigns_names :
    FormatResults reflectStub (some results_list) NeedName =
        .ok ("r0, r1", some results_list_named) ∧
    results_list_named ≠ results_list := by
  refine ⟨?_, ?_⟩ <;> decide

/-- C15 (amended): `FormatResults` leaves the list with as many fields as
before and leaves every field as it was, its type included, except that under
`NeedName` a field before the last that has no name is left with the single name
`r<k>`, `k` its position; without `NeedName` the list is left as it was. (In the
source `FormatReceiver` and `FormatParams` have no assignment to the list: they
are functions of the list and the mode that return only the text.) -/
theorem FormatResults_frame_effect (reflect : Expr → String) (l : List Field)
    (mode : FormatMode) (s : String) (l1 : FieldList)
    (hres : FormatResults reflect (some l) mode = .ok (s, l1)) :
    ∃ fs, l1 = some fs ∧ fs.length = l.length ∧
      (∀ (k : Nat) (f : Field), l[k]? = some f →
        ∃ g, fs[k]? = some g ∧ g.Typ = f.Typ ∧
          ((has mode NeedName = true ∧ k + 1 < l.length ∧ f.Names = []) →
            g.Names = ["r" ++ toString k]) ∧
          (¬ (has mode NeedName = true ∧ k + 1 < l.length ∧ f.Names = []) → g = f)) ∧
      (has mode NeedName = false → fs = l) := by
  obtain ⟨fs, h1, hlen, hk⟩ := FormatResults_fields reflect l mode s l1 hres
  refine ⟨fs, h1, hlen, ?_, ?_⟩
  · intro k f hf
    refine ⟨_, hk k f hf, ?_, ?_, ?_⟩
    · split
      · exact synthName_Typ mode k f
      · rfl
    · rintro ⟨hN, hlt, hnm⟩
      simp [hlt, synthName, hN, hnm]
    · intro hnot
      by_cases hlt : k + 1 < l.length
      · simp only [hlt, if_true]
        by_cases hN : has mode NeedName = true
        · have hnm : f.Names ≠ [] := fun h => hnot ⟨hN, hlt, h⟩
          exact synthName_of_named mode k f hnm
        · exact synthName_of_not_NeedName mode k f (by simpa using hN)
      · simp [hlt]
  · intro hN
    subst h1
    exact FormatResults_frame reflect mode hN (some l) s (some fs) hres |> Option.some.inj

theorem FormatResults_frame_effect_witness :
    ∃ fs, some results_list_named = some fs ∧ fs.length = results_list.length ∧
      (∀ (k : Nat) (f : Field), results_list[k]? = some f →
        ∃ g, fs[k]? = some g ∧ g.Typ = f.Typ ∧
          ((has NeedName NeedName = true ∧ k + 1 < results_list.length ∧
              f.Names = []) → g.Names = ["r" ++ toString k]) ∧
          (¬ (has NeedName NeedName = true ∧ k + 1 < results_list.length ∧
              f.Names = []) → g = f)) ∧
      (has NeedName NeedName = false → fs = results_list) :=
  FormatResults_frame_effect reflectStub results_list NeedName "r0, r1"
    (some results_list_named) (by decide)

theorem refAfter_none (results : FieldList) (tfi tdi : Nat) :
    refAfter results tfi tdi none = none := rfl

theorem refAfter_other (results : FieldList) (tfi tdi fi di : Nat) (n : FuncDecl)
    (h : ¬ (fi = tfi ∧ di = tdi)) :
    refAfter results tfi tdi (some ⟨fi, di, n⟩) = some ⟨fi, di, n⟩ := by
  simp [refAfter, h]

theorem refAfter_target (results : FieldList) (tfi tdi : Nat) (n : FuncDecl) :
    refAfter results tfi tdi (some ⟨tfi, tdi, n⟩) =
      some ⟨tfi, tdi, withResults results n⟩ := by
  simp [refAfter]

/-- The walk over declarations that are not touched by the store sees the same
matches. -/
theorem inspectDecls_refAfter_same (N : String) (results : FieldList) (tfi tdi fi : Nat)
    (decls : List Decl) : ∀ (d0 : Nat) (acc : Option DeclRef),
    (fi ≠ tfi ∨ tdi < d0) →
    inspectDecls N fi d0 decls (refAfter results tfi tdi acc) =
      refAfter results tfi tdi (inspectDecls N fi d0 decls acc) := by
  induction decls with
  | nil => intro d0 acc _; rfl
  | cons x rest ih =>
    intro d0 acc h
    have h1 : fi ≠ tfi ∨ tdi < d0 + 1 := by
      rcases h with h | h
      · exact Or.inl h
      · exact Or.inr (by omega)
    cases x with
    | genDecl => simp only [inspectDecls]; exact ih (d0 + 1) acc h1
    | funcDecl n =>
      simp only [inspectDecls]
      split
      · have hne : ¬ (fi = tfi ∧ d0 = tdi) := by
          rintro ⟨e1, e2⟩
          rcases h with h | h
          · exact h e1
          · omega
        rw [← ih (d0 + 1) _ h1, refAfter_other results tfi tdi fi d0 n hne]
      · exact ih (d0 + 1) acc h1

/-- The walk over the declarations of the file in which results are stored. -/
theorem inspectDecls_setResults (N : String) (results : FieldList) (tfi : Nat)
    (decls : List Decl) : ∀ (d0 k : Nat) (acc : Option DeclRef),
    inspectDecls N tfi d0 (setResultsInDecls results k decls)
        (refAfter results tfi (d0 + k) acc) =
      refAfter results tfi (d0 + k) (inspectDecls N tfi d0 decls acc) := by
  induction decls with
  | nil => intro d0 k acc; cases k <;> rfl
  | cons x rest ih =>
    intro d0 k acc
    cases k with
    | zero =>
      cases x with
      | genDecl =>
        simp only [setResultsInDecls, inspectDecls]
        exact inspectDecls_refAfter_same N results tfi (d0 + 0) tfi rest (d0 + 1) acc
          (Or.inr (by omega))
      | funcDecl n =>
        simp only [setResultsInDecls, inspectDecls]
        split
        · rw [← inspectDecls_refAfter_same N results tfi (d0 + 0) tfi rest (d0 + 1) _
            (Or.inr (by omega))]
          have : refAfter results tfi (d0 + 0) (some ⟨tfi, d0, n⟩) =
              some ⟨tfi, d0, withResults results n⟩ := by
            simpa using refAfter_target results tfi d0 n
          rw [this]
          rfl
        · exact inspectDecls_refAfter_same N results tfi (d0 + 0) tfi rest (d0 + 1) acc
            (Or.inr (by omega))
    | succ k =>
      have e : d0 + (k + 1) = d0 + 1 + k := by omega
      cases x with
      | genDecl =>
        simp only [setResultsInDecls, inspectDecls]
        rw [e]
        exact ih (d0 + 1) k acc
      | funcDecl n =>
        simp only [setResultsInDecls, inspectDecls]
        split
        · rw [e, ← ih (d0 + 1) k _,
            refAfter_other results tfi (d0 + 1 + k) tfi d0 n (by omega)]
        · rw [e]
          exact ih (d0 + 1) k acc

theorem findDecl_refAfter_same (N : String) (results : FieldList) (tfi tdi : Nat)
    (files : List File) : ∀ (f0 : Nat) (acc : Option DeclRef), tfi < f0 →
    findDecl N f0 files (refAfter results tfi tdi acc) =
      refAfter results tfi tdi (findDecl N f0 files acc) := by
  induction files with
  | nil => intro f0 acc _; rfl
  | cons file rest ih =>
    intro f0 acc h
    simp only [findDecl]
    rw [inspectDecls_refAfter_same N results tfi tdi f0 file.Decls 0 acc
      (Or.inl (by omega))]
    exact ih (f0 + 1) _ (by omega)

/-- The search of `generate` in the package after results are stored finds the
declaration it found before, at the same place, with the stored results. -/
theorem findDecl_setResults (N : String) (results : FieldList) (tdi : Nat)
    (files : List File) : ∀ (f0 k : Nat) (acc : Option DeclRef),
    findDecl N f0 (setResults results k tdi files) (refAfter results (f0 + k) tdi acc) =
      refAfter results (f0 + k) tdi (findDecl N f0 files acc) := by
  induction files with
  | nil => intro f0 k acc; cases k <;> rfl
  | cons file rest ih =>
    intro f0 k acc
    cases k with
    | zero =>
      simp only [setResults, findDecl]
      have := inspectDecls_setResults N results (f0 + 0) file.Decls 0 tdi acc
      simp only [Nat.zero_add, Nat.add_zero] at this ⊢
      rw [this]
      exact findDecl_refAfter_same N results f0 tdi rest (f0 + 1) _ (by omega)
    | succ k =>
      have e : f0 + (k + 1) = f0 + 1 + k := by omega
      simp only [setResults, findDecl]
      rw [inspectDecls_refAfter_same N results (f0 + (k + 1)) tdi f0 file.Decls 0 acc
        (Or.inl (by omega)), e]
      exact ih (f0 + 1) k _

/-- The generator `generate` returns when the formatters succeed on the located
declaration: the wrapper appended, and the list the assignment call left stored
as the results of the declaration. -/
theorem generate_ok_full (reflect : Expr → String) (g : Generator) (N : String)
    (ref : DeclRef)
    (recvDecl paramsDecl resDecl resAssign recvCall paramsCall resReturn : String)
    (l1 l2 l3 : FieldList)
    (hfind : findDecl N 0 g.pkg.Syntax none = some ref)
    (h1 : FormatReceiver reflect ref.node.Recv (NeedName ||| NeedType) = .ok recvDecl)
    (h2 : FormatParams reflect ref.node.Typ.Params (NeedName ||| NeedType) = .ok paramsDecl)
    (h3 : FormatResults reflect ref.node.Typ.Results NeedType = .ok (resDecl, l1))
    (h4 : FormatResults reflect ref.node.Typ.Results (NeedName ||| NeedError) =
      .ok (resAssign, l2))
    (h5 : FormatReceiver reflect ref.node.Recv NeedName = .ok recvCall)
    (h6 : FormatParams reflect ref.node.Typ.Params NeedName = .ok paramsCall)
    (h7 : FormatResults reflect ref.node.Typ.Results NeedName = .ok (resReturn, l3)) :
    generate reflect g N = .ok
      { buf := g.buf ++ wrapperText N recvDecl paramsDecl resDecl resAssign recvCall
          paramsCall resReturn,
        pkg := { Syntax := setResults l2 ref.file ref.index g.pkg.Syntax } } := by
  have e1 : l1 = ref.node.Typ.Results :=
    FormatResults_frame reflect NeedType has_NeedType_NeedName _ _ _ h3
  subst e1
  have h7b := FormatResults_return_after_assign reflect _ _ _ _ _ h4 h7
  simp only [generate, hfind, bind, Except.bind, orExit, h1, h2, h3, h4, h5, h6, h7b, pure,
    Except.pure, wrapperText]
  simp only [String.append_assoc]
  rfl

theorem FormatResults_names_total (reflect : Expr → String) (fl : FieldList) :
    ∃ sA sR l2,
      FormatResults reflect fl (NeedName ||| NeedError) = .ok (sA, l2) ∧
      FormatResults reflect fl NeedName = .ok (sR, l2) ∧
      FormatResults reflect l2 (NeedName ||| NeedError) = .ok (sA, l2) ∧
      FormatResults reflect l2 NeedName = .ok (sR, l2) := by
  cases fl with
  | none => exact ⟨"", "", none, rfl, rfl, rfl, rfl⟩
  | some l =>
    obtain ⟨fs, es, hrun⟩ :=
      resultsRun_ok_of_not_NeedType reflect NeedName has_NeedName_NeedType l 0
    have hc : ∀ x, resultsRun reflect (NeedName ||| NeedError) 0 x =
        resultsRun reflect NeedName 0 x := fun x =>
      resultsRun_congr reflect (NeedName ||| NeedError) NeedName
        (by rw [has_NameError_NeedName, has_NeedName_NeedName])
        (by rw [has_NameError_NeedType, has_NeedName_NeedType]) x 0
    have hagain := resultsRun_again reflect NeedName l 0 fs es hrun
    refine ⟨Join (es ++ errEntry (NeedName ||| NeedError)) ", ",
      Join (es ++ errEntry NeedName) ", ", some fs, ?_, ?_, ?_, ?_⟩
    · rw [FormatResults_eq_run, hc, hrun]
    · rw [FormatResults_eq_run, hrun]
    · rw [FormatResults_eq_run, hc, hagain]
    · rw [FormatResults_eq_run, hagain]

/-- What a successful run of `generate` went through. -/
theorem generate_ok_inv (reflect : Expr → String) (g g1 : Generator) (N : String)
    (hgen : generate reflect g N = .ok g1) :
    ∃ ref recvDecl paramsDecl resDecl resAssign recvCall paramsCall resReturn l2,
      findDecl N 0 g.pkg.Syntax none = some ref ∧
      FormatReceiver reflect ref.node.Recv (NeedName ||| NeedType) = .ok recvDecl ∧
      FormatParams reflect ref.node.Typ.Params (NeedName ||| NeedType) = .ok paramsDecl ∧
      FormatResults reflect ref.node.Typ.Results NeedType =
        .ok (resDecl, ref.node.Typ.Results) ∧
      FormatResults reflect ref.node.Typ.Results (NeedName ||| NeedError) =
        .ok (resAssign, l2) ∧
      FormatReceiver reflect ref.node.Recv NeedName = .ok recvCall ∧
      FormatParams reflect ref.node.Typ.Params NeedName = .ok paramsCall ∧
      FormatResults reflect ref.node.Typ.Results NeedName = .ok (resReturn, l2) ∧
      FormatResults reflect l2 (NeedName ||| NeedError) = .ok (resAssign, l2) ∧
      FormatResults reflect l2 NeedName = .ok (resReturn, l2) := by
  cases hfind : findDecl N 0 g.pkg.Syntax none with
  | none => simp [generate, hfind] at hgen
  | some ref =>
    obtain ⟨sA, sR, l2, hA, hR, hA2, hR2⟩ :=
      FormatResults_names_total reflect ref.node.Typ.Results
    cases h1 : FormatReceiver reflect ref.node.Recv (NeedName ||| NeedType) with
    | error e => simp [generate, hfind, h1, bind, Except.bind, orExit] at hgen
    | ok recvDecl =>
      cases h2 : FormatParams reflect ref.node.Typ.Params (NeedName ||| NeedType) with
      | error e => simp [generate, hfind, h1, h2, bind, Except.bind, orExit] at hgen
      | ok paramsDecl =>
        cases h3 : FormatResults reflect ref.node.Typ.Results NeedType with
        | error e => simp [generate, hfind, h1, h2, h3, bind, Except.bind, orExit] at hgen
        | ok p =>
          obtain ⟨resDecl, l1⟩ := p
          have e1 : l1 = ref.node.Typ.Results :=
            FormatResults_frame reflect NeedType has_NeedType_NeedName _ _ _ h3
          subst e1
          cases h5 : FormatReceiver reflect ref.node.Recv NeedName with
          | error e =>
            simp [generate, hfind, h1, h2, h3, hA, h5, bind, Except.bind, orExit] at hgen
          | ok recvCall =>
            cases h6 : FormatParams reflect ref.node.Typ.Params NeedName with
            | error e =>
              simp [generate, hfind, h1, h2, h3, hA, h5, h6, bind, Except.bind,
                orExit] at hgen
            | ok paramsCall =>
              exact ⟨ref, recvDecl, paramsDecl, resDecl, sA, recvCall, paramsCall, sR, l2,
                rfl, h1, h2, h3, hA, h5, h6, hR, hA2, hR2⟩

/-- The signature call on the list the assignment call left succeeds when it
succeeded on the list as found, and leaves that list. -/
theorem resultsRun_NeedType_after (reflect : Expr → String) (l : List Field) :
    ∀ (i : Nat) (es : List String) (fs : List Field) (es1 : List String),
      resultsRun reflect NeedType i l = .ok (l, es) →
      resultsRun reflect NeedName i l = .ok (fs, es1) →
      ∃ es2, resultsRun reflect NeedType i fs = .ok (fs, es2) := by
  induction l with
  | nil =>
    intro i es fs es1 _ h1
    simp [resultsRun] at h1
    obtain ⟨e1, e2⟩ := h1
    subst_vars
    exact ⟨[], rfl⟩
  | cons f rest ih =>
    intro i es fs es1 h2 h1
    cases rest with
    | nil =>
      simp [resultsRun] at h1
      obtain ⟨e1, e2⟩ := h1
      subst_vars
      exact ⟨[], rfl⟩
    | cons g rest =>
      rw [resultsRun_cons_cons] at h1 h2
      rw [synthName_of_not_NeedName _ _ _ has_NeedType_NeedName] at h2
      cases hty2 : resultType reflect NeedType i f with
      | error e => simp [hty2] at h2
      | ok typ2 =>
        cases hrun2 : resultsRun reflect NeedType (i + 1) (g :: rest) with
        | error e => simp [hty2, hrun2] at h2
        | ok p2 =>
          obtain ⟨fs2, es2⟩ := p2
          have hfs2 := resultsRun_frame reflect NeedType has_NeedType_NeedName _ _ _ _ hrun2
          subst hfs2
          cases hty1 : resultType reflect NeedName i (synthName NeedName i f) with
          | error e => simp [hty1] at h1
          | ok typ1 =>
            cases hrun1 : resultsRun reflect NeedName (i + 1) (g :: rest) with
            | error e => simp [hty1, hrun1] at h1
            | ok p1 =>
              obtain ⟨fs1, es1a⟩ := p1
              simp [hty1, hrun1] at h1
              obtain ⟨e1, e2⟩ := h1
              subst e1
              obtain ⟨es3, h3⟩ := ih (i + 1) es2 fs1 es1a hrun2 hrun1
              have hlen := (resultsRun_length reflect NeedName _ _ _ _ hrun1).1
              obtain ⟨g1, rest1, hfs1⟩ : ∃ g1 rest1, fs1 = g1 :: rest1 := by
                cases fs1 with
                | nil => simp at hlen
                | cons a b => exact ⟨a, b, rfl⟩
              rw [hfs1, resultsRun_cons_cons,
                synthName_of_not_NeedName _ _ _ has_NeedType_NeedName,
                resultType_synthName, hty2, ← hfs1, h3]
              exact ⟨_, rfl⟩

theorem FormatResults_NeedType_after (reflect : Expr → String) (fl l2 : FieldList)
    (resDecl sR : String)
    (h3 : FormatResults reflect fl NeedType = .ok (resDecl, fl))
    (hR : FormatResults reflect fl NeedName = .ok (sR, l2)) :
    ∃ resDecl2, FormatResults reflect l2 NeedType = .ok (resDecl2, l2) := by
  cases fl with
  | none =>
    simp [FormatResults] at hR
    obtain ⟨_, e⟩ := hR
    subst e
    exact ⟨"", rfl⟩
  | some l =>
    rw [FormatResults_eq_run] at h3 hR
    cases hrun2 : resultsRun reflect NeedType 0 l with
    | error e => simp [hrun2] at h3
    | ok p2 =>
      obtain ⟨fs2, es2⟩ := p2
      have hfs2 := resultsRun_frame reflect NeedType has_NeedType_NeedName _ _ _ _ hrun2
      rw [hfs2] at hrun2
      cases hrun1 : resultsRun reflect NeedName 0 l with
      | error e => simp [hrun1] at hR
      | ok p1 =>
        obtain ⟨fs1, es1⟩ := p1
        simp [hrun1] at hR
        obtain ⟨_, e⟩ := hR
        subst e
        obtain ⟨es3, h⟩ := resultsRun_NeedType_after reflect _ 0 es2 fs1 es1 hrun2 hrun1
        exact ⟨_, by rw [FormatResults_eq_run, h]⟩

/-- With every field before the last named, `FormatResults` leaves the list as
it was. -/
theorem FormatResults_named_frame (reflect : Expr → String) (l : List Field)
    (mode : FormatMode) (s : String) (l1 : FieldList)
    (hnamed : ∀ f ∈ l.dropLast, f.Names ≠ [])
    (hres : FormatResults reflect (some l) mode = .ok (s, l1)) : l1 = some l := by
  obtain ⟨fs, h1, hlen, hk⟩ := FormatResults_fields reflect l mode s l1 hres
  rw [h1]
  congr 1
  apply List.ext_getElem? 
  intro k
  cases hl : l[k]? with
  | none =>
    have : l.length ≤ k := by
      by_contra hc
      rw [List.getElem?_eq_getElem (by omega)] at hl
      cases hl
    rw [List.getElem?_eq_none (by omega)]
  | some f =>
    rw [hk k f hl]
    by_cases hlt : k + 1 < l.length
    · simp only [hlt, if_true]
      have hmem : f ∈ l.dropLast := by
        have : l.dropLast[k]? = some f := by
          rw [List.getElem?_dropLast, if_pos (by omega), hl]
        exact List.getElem?_mem this
      rw [synthName_of_named mode k f (hnamed f hmem)]
    · simp [hlt]

theorem setResultsInDecls_idem (results : FieldList) (decls : List Decl) : ∀ (k : Nat),
    setResultsInDecls results k (setResultsInDecls results k decls) =
      setResultsInDecls results k decls := by
  induction decls with
  | nil => intro k; cases k <;> rfl
  | cons x rest ih =>
    intro k
    cases k with
    | zero => cases x <;> rfl
    | succ k => simp only [setResultsInDecls, ih k]

theorem setResults_idem (results : FieldList) (tdi : Nat) (files : List File) :
    ∀ (k : Nat), setResults results k tdi (setResults results k tdi files) =
      setResults results k tdi files := by
  induction files with
  | nil => intro k; cases k <;> rfl
  | cons file rest ih =>
    intro k
    cases k with
    | zero => simp only [setResults, setResultsInDecls_idem]
    | succ k => simp only [setResults, ih k]

set_option maxRecDepth 20000 in
/-- C16 (counterexample): a second run of `generate` for `Results` on the same
loaded package appends a wrapper whose signature has the result list
`(r0 string, r1 int)`, where the first run wrote `(string, int)`. -/
theorem generate_twice_differs :
    generate reflectStub (generatorOn [results_in]) "Results" = .ok results_run1 ∧
    (generate reflectStub results_run1 "Results").toOption.map (fun g => g.buf) =
      some (results_out_raw ++ results_out_again) ∧
    results_out_again ≠ results_out_raw := by
  refine ⟨?_, ?_, ?_⟩
  · decide
  · decide
  · intro h
    have hlen := congrArg String.length h
    revert hlen
    decide

/-- C16 (amended): when `generate` succeeds for a name, a second run for the
same name on the generator the first run returned succeeds as well; it appends
the same wrapper text except for the signature's result list, which is formatted
from the result list as the first run left it, and it is exactly the same text
when every result before the last is named in the declaration; the second run
leaves the package as the first left it. -/
theorem generate_second_run (reflect : Expr → String) (g g1 : Generator) (N : String)
    (hgen : generate reflect g N = .ok g1) :
    ∃ ref recvDecl paramsDecl resDecl resDecl2 resAssign recvCall paramsCall resReturn l2 g2,
      findDecl N 0 g.pkg.Syntax none = some ref ∧
      FormatResults reflect ref.node.Typ.Results NeedType =
        .ok (resDecl, ref.node.Typ.Results) ∧
      FormatResults reflect ref.node.Typ.Results (NeedName ||| NeedError) =
        .ok (resAssign, l2) ∧
      FormatResults reflect l2 NeedType = .ok (resDecl2, l2) ∧
      g1.buf = g.buf ++ wrapperText N recvDecl paramsDecl resDecl resAssign recvCall
        paramsCall resReturn ∧
      generate reflect g1 N = .ok g2 ∧
      g2.buf = g1.buf ++ wrapperText N recvDecl paramsDecl resDecl2 resAssign recvCall
        paramsCall resReturn ∧
      g2.pkg = g1.pkg ∧
      ((∀ l, ref.node.Typ.Results = some l → ∀ f ∈ l.dropLast, f.Names ≠ []) →
        resDecl2 = resDecl) := by
  obtain ⟨ref, recvDecl, paramsDecl, resDecl, resAssign, recvCall, paramsCall, resReturn, l2,
    hfind, h1, h2, h3, h4, h5, h6, h7, h4b, h7b⟩ := generate_ok_inv reflect g g1 N hgen
  obtain ⟨resDecl2, h3b⟩ := FormatResults_NeedType_after reflect _ l2 resDecl resReturn h3 h7
  have hfull := generate_ok_full reflect g N ref recvDecl paramsDecl resDecl resAssign
    recvCall paramsCall resReturn _ l2 l2 hfind h1 h2 h3 h4 h5 h6 h7
  rw [hgen] at hfull
  have hg1 : g1 = ⟨g.buf ++ wrapperText N recvDecl paramsDecl resDecl resAssign
      recvCall paramsCall resReturn, ⟨setResults l2 ref.file ref.index g.pkg.Syntax⟩⟩ := by
    injection hfull
  have hfind2 : findDecl N 0 g1.pkg.Syntax none =
      some ⟨ref.file, ref.index, withResults l2 ref.node⟩ := by
    have := findDecl_setResults N l2 ref.index g.pkg.Syntax 0 ref.file none
    rw [refAfter_none, hfind] at this
    simp only [Nat.zero_add] at this
    rw [hg1]
    simp only
    rw [this]
    exact refAfter_target l2 ref.file ref.index ref.node
  have hfull2 := generate_ok_full reflect g1 N ⟨ref.file, ref.index, withResults l2 ref.node⟩
    recvDecl paramsDecl resDecl2 resAssign recvCall paramsCall resReturn l2 l2 l2 hfind2
    h1 h2 h3b h4b h5 h6 h7b
  refine ⟨ref, recvDecl, paramsDecl, resDecl, resDecl2, resAssign, recvCall, paramsCall,
    resReturn, l2, _, hfind, h3, h4, h3b, ?_, hfull2, rfl, ?_, ?_⟩
  · rw [hg1]
  · simp only
    rw [hg1]
    simp only [setResults_idem]
  · intro hnamed
    cases hres : ref.node.Typ.Results with
    | none =>
      rw [hres] at h3 h4
      simp [FormatResults] at h4 h3
      obtain ⟨_, e⟩ := h4
      subst e
      simp [FormatResults] at h3b
      rw [← h3b, ← h3]
    | some l =>
      rw [hres] at h3 h4
      have e := FormatResults_named_frame reflect l _ _ _ (hnamed l hres) h4
      subst e
      rw [h3] at h3b
      simp at h3b
      exact h3b.symm

set_option maxRecDepth 20000 in
theorem generate_second_run_witness :
    ∃ ref recvDecl paramsDecl resDecl resDecl2 resAssign recvCall paramsCall resReturn l2 g2,
      findDecl "Results" 0 (generatorOn [results_in]).pkg.Syntax none = some ref ∧
      FormatResults reflectStub ref.node.Typ.Results NeedType =
        .ok (resDecl, ref.node.Typ.Results) ∧
      FormatResults reflectStub ref.node.Typ.Results (NeedName ||| NeedError) =
        .ok (resAssign, l2) ∧
      FormatResults reflectStub l2 NeedType = .ok (resDecl2, l2) ∧
      results_run1.buf = (generatorOn [results_in]).buf ++ wrapperText "Results" recvDecl
        paramsDecl resDecl resAssign recvCall paramsCall resReturn ∧
      generate reflectStub results_run1 "Results" = .ok g2 ∧
      g2.buf = results_run1.buf ++ wrapperText "Results" recvDecl paramsDecl resDecl2
        resAssign recvCall paramsCall resReturn ∧
      g2.pkg = results_run1.pkg ∧
      ((∀ l, ref.node.Typ.Results = some l → ∀ f ∈ l.dropLast, f.Names ≠ []) →
        resDecl2 = resDecl) :=
  generate_second_run reflectStub (generatorOn [results_in]) results_run1 "Results"
    (by decide)

end Muster
